import Mathlib

/-!
# ccontainermain: the container entry point for a Caché instance

A shallow embedding of `ccontainermain.go`.

* Go strings are lists of characters (`Str`); every separator the program
  splits on is a single ASCII character.
* Go `int` is the 64-bit two's-complement integer: an `Int` wrapped by
  `wrapInt64` after every multiplication.
* The outside world (the commands run through `os/exec`, `runtime.GOOS`, the
  arrival of a signal) is a `World`; a run threads a state `St` holding the
  trace of interactions and the log, and ends in a `Res`.
* `float64` values are exact dyadic numbers `Float64`; `strconv.ParseFloat`
  is computed with IEEE-754 round-half-to-even on plain decimal numerals.
* `dbg` is the constant `false` in the source, so the `if dbg` blocks are
  dead code and do not appear here.
* `main` is the sequence of the main goroutine. `go startExtraService(...)` is
  followed at once by the blocking receive from its unbuffered channel, so its
  body is run in place, up to its send. `go tailCConsoleLog(inst)` is recorded
  in the main sequence as the event `spawnTail`; the log follower it starts
  runs concurrently, and `process` is the run of the whole process: the main
  sequence with the follower's own `ccontrol qlist` placed where the scheduler
  (`TailEnv`) puts it, cut short where a fatal end of the follower stops the
  process.
* `main` is cut at its numbered comments into `mainStartup` (1),
  `mainExtraStart` (2), the signal wait (3) and `mainShutdown` (4, 5).
* Lean has no `é` in identifiers: `startCaché` and `shutdownCaché` are
  `startCache` and `shutdownCache`.
-/

namespace CContainerMain

/-- Go `string`. -/
abbrev Str := List Char

/-! ## Library functions used by the program -/

/-- Go `strings.Split(s, sep)` for a one-character separator. -/
def Split (sep : Char) : Str → List Str
  | [] => [[]]
  | c :: cs =>
    if c = sep then [] :: Split sep cs
    else match Split sep cs with
      | [] => [[c]]
      | p :: ps => (c :: p) :: ps

/-- Go `strings.SplitN(s, sep, n)` for a one-character separator and `n ≥ 0`:
at most `n` pieces, the last one being the unsplit remainder. -/
def SplitN (sep : Char) : Nat → Str → List Str
  | 0, _ => []
  | 1, s => [s]
  | _ + 2, [] => [[]]
  | n + 2, c :: cs =>
    if c = sep then [] :: SplitN sep (n + 1) cs
    else match SplitN sep (n + 2) cs with
      | [] => [[c]]
      | p :: ps => (c :: p) :: ps

/-- Go `strings.Join(elems, sep)`. -/
def Join (sep : Str) : List Str → Str
  | [] => []
  | [a] => a
  | a :: b :: rest => a ++ sep ++ Join sep (b :: rest)

/-- Go `int` on a 64-bit platform: wrap a mathematical integer into
`[-2^63, 2^63)`. -/
def wrapInt64 (x : Int) : Int := (x + 2 ^ 63) % 2 ^ 64 - 2 ^ 63

/-- Go `strconv.Itoa`. -/
def Itoa (i : Int) : Str :=
  if i < 0 then '-' :: Nat.toDigits 10 i.natAbs else Nat.toDigits 10 i.toNat

/-- A finite `float64`: the number `(-1)^neg * mant * 2^exp`. -/
structure Float64 where
  neg : Bool
  mant : Nat
  exp : Int
deriving DecidableEq, Repr

/-- The float scaled to the common exponent `e` (with `e ≤ a.exp`): an integer. -/
def Float64.scaled (a : Float64) (e : Int) : Int :=
  (if a.neg then -1 else 1) * ((a.mant : Int) * 2 ^ (a.exp - e).toNat)

/-- Go `a < b` on finite `float64` values. -/
def Float64.lt (a b : Float64) : Bool :=
  decide (a.scaled (min a.exp b.exp) < b.scaled (min a.exp b.exp))

/-- Number of binary digits of `n`, by at most `fuel` halvings. -/
def bitLenAux : Nat → Nat → Nat
  | 0, _ => 0
  | fuel + 1, n => if n = 0 then 0 else bitLenAux fuel (n / 2) + 1

/-- Number of binary digits of `n`. -/
def bitLen (n : Nat) : Nat := bitLenAux n n

/-- The quotient `n / d` rounded to the nearest integer, ties to even. -/
def roundHalfEven (n d : Nat) : Nat :=
  let q := n / d
  let r := n % d
  if 2 * r < d then q
  else if d < 2 * r then q + 1
  else if q % 2 = 0 then q else q + 1

/-- The integer `⌊log2 (num / den)⌋` for positive `num`, `den`. -/
def floorLog2 (num den : Nat) : Int :=
  let d : Int := (bitLen num : Int) - (bitLen den : Int)
  if den * 2 ^ d.toNat ≤ num * 2 ^ (-d).toNat then d else d - 1

/-- IEEE-754 binary64 round-to-nearest-even of the non-negative rational
`num / den` (`den > 0`): 53 significant bits, least exponent `-1074`
(subnormals), `none` when the rounded value exceeds the largest finite
`float64` (Go reports `ErrRange`). -/
def roundFloat64 (num den : Nat) : Option Float64 :=
  if num = 0 then some ⟨false, 0, 0⟩
  else
    let e : Int := max (floorLog2 num den - 52) (-1074)
    let m := roundHalfEven (num * 2 ^ (-e).toNat) (den * 2 ^ e.toNat)
    if 971 < e ∨ (e = 971 ∧ 2 ^ 53 ≤ m) then none
    else some ⟨false, m, e⟩

/-- A decimal digit character. -/
def isDigit (c : Char) : Bool := decide (48 ≤ c.toNat ∧ c.toNat ≤ 57)

/-- The number written by a string of decimal digits. -/
def digitsVal (s : Str) : Nat := s.foldl (fun acc c => 10 * acc + (c.toNat - 48)) 0

/-- A plain decimal numeral `ddd`, `ddd.ddd`, `ddd.` or `.ddd` (at least one
digit): its value as numerator and denominator. -/
def plainDecimal (s : Str) : Option (Nat × Nat) :=
  match Split '.' s with
  | [a] => if a.all isDigit && !a.isEmpty then some (digitsVal a, 1) else none
  | [a, b] =>
    if a.all isDigit && b.all isDigit && !(a ++ b).isEmpty then
      some (digitsVal (a ++ b), 10 ^ b.length)
    else none
  | _ => none

/-! ## The world and the state of a run -/

/-- How `os/exec` is used at a call site. -/
inductive Mode where
  | run     -- `Cmd.Run`
  | output  -- `Cmd.Output`
  | start   -- `Cmd.Start`
deriving DecidableEq, Repr

/-- The call sites of `exec.Command`. -/
inductive Site where
  | uname                 -- `getKernelVersion`
  | sysctl                -- `setSharedMemSeg`
  | folder                -- `getInstanceFolder`
  | cstart                -- `startCaché`
  | qlist (what : Str)    -- `checkCmdOutcome(what, _)`
  | session               -- `startApp`
  | cstop                 -- `shutdownCaché`
  | xstart                -- `startExtraService`
  | xstop                 -- `stopExtraService`
deriving DecidableEq, Repr

/-- What an external command gives back: whether `err != nil`, and its
standard output. -/
structure Resp where
  err : Bool
  out : Str
deriving DecidableEq, Repr

/-- One interaction of the process with the outside. -/
inductive Event where
  | exec (site : Site) (mode : Mode) (cmd : Str) (args : List Str) (resp : Resp)
  | spawnTail (inst : Str)       -- `go tailCConsoleLog(inst)`
  | spawnExtra (exeCmd : Str)    -- `go startExtraService(exeStart, chExeCheck)`
  | send (b : Bool)              -- `exeOK <- b`
  | recv (b : Bool)              -- `exeOK = <-chExeCheck`
  | waitSignal                   -- `sig := <-cSig`
  | printVersion                 -- `fmt.Printf("ccontainermain Version ...")`
deriving DecidableEq, Repr

/-- The `log.Printf` call sites (consecutive calls of one block are one tag). -/
inductive Log where
  | shmallWarning                -- line 50
  | sysctlFailed                 -- lines 72-75
  | folderFailed                 -- lines 90-91
  | folderQlistEmpty             -- line 101
  | tailFailed                   -- lines 117-118
  | startingCache                -- line 129
  | startFailed                  -- lines 157-161
  | notBroughtUp                 -- line 167
  | verifyFailed (what : Str)    -- lines 185-186
  | qlistEmpty                   -- line 196
  | startedOk                    -- line 208
  | stoppedOk                    -- line 211
  | signOnInhibited              -- lines 214-215
  | unrecognized (what qlistStr : Str)  -- lines 218-219
  | startingApp                  -- line 229
  | appFailed                    -- lines 245-246
  | shuttingDown                 -- line 256
  | stopFailed                   -- lines 262-265
  | notShutDown                  -- line 271
  | kernelCheckError             -- lines 312-313
  | autoTuning                   -- line 320
  | shmemError                   -- line 324
  | windowsUnimplemented         -- line 333
  | unameFailed                  -- lines 354-357
  | floatConvError               -- line 402
  | startingExtra                -- line 418
  | extraStartError              -- line 433
  | shuttingDownExtra            -- line 453
  | extraStopFailed              -- lines 463-464
  | mainKernelError              -- lines 536-537
  | mainStartError               -- line 545
  | cacheUp                      -- line 548
  | mainAppError                 -- line 556
  | appUp                        -- line 559
  | extraError                   -- line 580
  | extraUp                      -- line 582
  | signalTrapped                -- line 600
  | mainShutdownError            -- line 610
  | cacheDown                    -- line 613
  | mainExtraStopError           -- line 623
  | extraDown                    -- line 626
deriving DecidableEq, Repr

/-- The environment of a run. `exec n cmd args` is what the command gives back
when it is run as interaction number `n` of the main sequence (the length of
the trace before it), so the same command may answer differently each time it
is run; `parseFloatOther` is `strconv.ParseFloat(_, 64)` on the
strings that are not plain decimal numerals (signs, exponents, hexadecimal
forms; `none` is a non-nil error). The string handed to `ParseFloat` by
`getKernelVersion` always contains a dot, so it is never `Inf` or `NaN` and a
nil error always comes with a finite value. -/
structure World where
  goos : Str
  exec : Nat → Str → List Str → Resp
  signal : Bool
  parseFloatOther : Str → Option Float64

/-- The observable state of a run: the interactions so far, the log so far,
and the values sent on `chExeCheck` and not yet received. -/
structure St where
  trace : List Event
  logs : List Log
  chan : List Bool
deriving DecidableEq, Repr

/-- The state before `main` starts. -/
def St.init : St := ⟨[], [], []⟩

/-- How a piece of the program ends. -/
inductive Res (α : Type) where
  | ok (a : α)          -- it returned `a`
  | exit (code : Nat)   -- `os.Exit(code)`
  | goPanic               -- a run-time panic (index out of range)
  | blocked             -- it waits forever
deriving DecidableEq, Repr

/-- The exit status of the process, if it terminates: a return from `main` is
status 0, a Go panic is status 2. -/
def Res.exitStatus : Res Unit → Option Nat
  | .ok _ => some 0
  | .exit c => some c
  | .goPanic => some 2
  | .blocked => none

/-- A piece of the program: a state transformer that may stop the process. -/
def Prog (α : Type) : Type := St → St × Res α

/-- Sequencing: the continuation runs only if the first part returned. -/
def Prog.bind {α β : Type} (p : Prog α) (f : α → Prog β) : Prog β := fun s =>
  match p s with
  | (s1, .ok a) => f a s1
  | (s1, .exit c) => (s1, .exit c)
  | (s1, .goPanic) => (s1, .goPanic)
  | (s1, .blocked) => (s1, .blocked)

instance : Monad Prog where
  pure a := fun s => (s, .ok a)
  bind := Prog.bind

/-- Go `os.Exit(code)`. -/
def osExit {α : Type} (code : Nat) : Prog α := fun s => (s, .exit code)

/-- A run-time panic. -/
def goPanic {α : Type} : Prog α := fun s => (s, .goPanic)

/-- Go `log.Printf`. -/
def logf (l : Log) : Prog Unit := fun s => ({ s with logs := s.logs ++ [l] }, .ok ())

/-- Record an interaction. -/
def emit (e : Event) : Prog Unit := fun s => ({ s with trace := s.trace ++ [e] }, .ok ())

/-- Run `exec.Command(cmd, args...)` at a call site and record it. -/
def execCmd (w : World) (site : Site) (mode : Mode) (cmd : Str) (args : List Str) :
    Prog Resp := fun s =>
  let r := w.exec s.trace.length cmd args
  ({ s with trace := s.trace ++ [Event.exec site mode cmd args r] }, .ok r)

/-- Go `strconv.ParseFloat(s, 64)`: `none` is a non-nil error. -/
def ParseFloat (w : World) (s : Str) : Option Float64 :=
  match plainDecimal s with
  | some (n, d) => roundFloat64 n d
  | none => w.parseFloatOther s

/-- Go `error`; only `nil` (`none`) is ever produced by this program. -/
abbrev Error := Option Unit

/-! ## The program -/

def version : Str := "0.4".toList

/-- The constant `3.16` as a `float64`: `0x1947AE147AE148 * 2^-51`. -/
def k316 : Float64 := ⟨false, 7115687411245384, -51⟩

def pre316MaxShmall : Int := 8192

/-- The value `shmmaxByteVal` computed by `setSharedMemSeg` (lines 49-54). -/
def shmmaxByteVal (shmmaxVal : Int) : Int :=
  let v := if shmmaxVal > pre316MaxShmall then pre316MaxShmall else shmmaxVal
  wrapInt64 (wrapInt64 (v * 1024) * 1024)

/-- The string `kernelParamShmmax` built by `setSharedMemSeg` (lines 60-61). -/
def kernelParamShmmax (shmmaxVal : Int) : Str :=
  Join [] ["kernel.shmmax=".toList, Itoa (shmmaxByteVal shmmaxVal)]

def setSharedMemSeg (w : World) (shmmaxVal : Int) : Prog (Bool × Error) := do
  if shmmaxVal > pre316MaxShmall then
    logf .shmallWarning
  let r ← execCmd w .sysctl .run "sysctl".toList ["-w".toList, kernelParamShmmax shmmaxVal]
  if r.err then
    logf .sysctlFailed
    osExit 1
  return (true, none)

def getInstanceFolder (w : World) (inst : Str) : Prog Str := do
  let r ← execCmd w .folder .output "ccontrol".toList ["qlist".toList, inst]
  if r.err then
    logf .folderFailed
    osExit 1
  else
    let qlistStr := r.out
    if qlistStr = [] then
      logf .folderQlistEmpty
      osExit 1
    match (SplitN '^' 4 qlistStr)[1]? with
    | none => goPanic
    | some folder => return folder

/-- The environment of the log follower, the goroutine started by
`go tailCConsoleLog(inst)`, which runs concurrently with the main sequence:
`exec cmd args` is what a command run by the follower gives back,
`tailFileErr path` tells whether `tail.TailFile(path, _)` returns a non-nil
error, `startAfter` is the number of further interactions of the main
sequence that happen before the follower's command runs, and `exitAfter` the
number of those that happen between that command and the moment a fatal end
of the follower stops the process. -/
structure TailEnv where
  exec : Str → List Str → Resp
  tailFileErr : Str → Bool
  startAfter : Nat
  exitAfter : Nat

/-- The world as the log follower sees it. -/
def TailEnv.world (t : TailEnv) (w : World) : World := { w with exec := fun _ => t.exec }

/-- The loop `for line := range t.Lines` (lines 120-122): it prints the lines
of `cconsole.log` as they come, for as long as the process lives. -/
def printLines : Prog Unit := fun s => (s, .blocked)

def tailCConsoleLog (w : World) (t : TailEnv) (inst : Str) : Prog Unit := do
  let folder ← getInstanceFolder (t.world w) inst
  if t.tailFileErr (folder ++ "/mgr/cconsole.log".toList) then
    logf .tailFailed
  else
    printLines

def checkCmdOutcome (w : World) (what : Str) (inst : Str) : Prog Error := do
  let r ← execCmd w (.qlist what) .output "ccontrol".toList ["qlist".toList, inst]
  if r.err then
    logf (.verifyFailed what)
    osExit 1
  else
    let qlistStr := r.out
    if qlistStr = [] then
      logf .qlistEmpty
      osExit 1
    let upDownStr := SplitN '^' 4 qlistStr
    match upDownStr[3]? with
    | none => goPanic
    | some field =>
      match (SplitN ',' 2 field)[0]? with
      | none => goPanic
      | some cstatus =>
        if cstatus = "running".toList then
          logf .startedOk
        else if cstatus = "down".toList then
          logf .stoppedOk
        else if cstatus = "sign-on inhibited".toList then
          logf .signOnInhibited
        else
          logf (.unrecognized what qlistStr)
  return none

/-- The source's `startCaché`. The statement `go tailCConsoleLog(inst)` is the
event `spawnTail inst` of the main sequence; the body of the goroutine is
`tailCConsoleLog`, which `process` runs concurrently. -/
def startCache (w : World) (inst : Str) (nostu : Bool) (cclog : Bool) : Prog (Bool × Error) := do
  logf .startingCache
  let args := ["start".toList] ++ [inst] ++ (if nostu = true then ["nostu".toList] else [])
    ++ ["quietly".toList]
  if cclog then
    emit (.spawnTail inst)
  let r ← execCmd w .cstart .run "ccontrol".toList args
  if r.err then
    logf .startFailed
    osExit 1
  let err ← checkCmdOutcome w "up".toList inst
  if err ≠ none then
    logf .notBroughtUp
    osExit 1
  return (true, none)

def startApp (w : World) (inst nmsp rou : Str) : Prog (Bool × Error) := do
  logf .startingApp
  let r ← execCmd w .session .run "ccontrol".toList ["session".toList, inst, "-U".toList, nmsp, rou]
  if r.err then
    logf .appFailed
    osExit 1
  return (true, none)

/-- The source's `shutdownCaché`. -/
def shutdownCache (w : World) (inst : Str) : Prog (Bool × Error) := do
  logf .shuttingDown
  let r ← execCmd w .cstop .run "ccontrol".toList ["stop".toList, inst, "quietly".toList]
  if r.err then
    logf .stopFailed
    osExit 1
  let err ← checkCmdOutcome w "down".toList inst
  if err ≠ none then
    logf .notShutDown
    osExit 1
  return (true, none)

/-- The loop of lines 381-392: the first two pieces of `kvVls`. -/
def firstTwo (kvVls : List Str) : List Str :=
  kvVls.enum.foldl (fun version kp => if kp.1 < 2 then version.set kp.1 kp.2 else version) [[], []]

/-- The string `shortVer` of lines 379-399: the first two dot-separated pieces
of the `uname -r` answer, joined by a dot. -/
def shortVer (resp : Str) : Str :=
  let kvVls := Split '.' resp
  Join ".".toList (firstTwo kvVls)

def getKernelVersion (w : World) : Prog (Float64 × Error) := do
  let r ← execCmd w .uname .run "uname".toList ["-r".toList]
  if r.err then
    logf .unameFailed
    osExit 1
  else
    let resp := r.out
    match ParseFloat w (shortVer resp) with
    | none =>
      logf .floatConvError
      osExit 1
    | some kVer => return (kVer, none)

def checkKernelAndShmem (w : World) (shmem : Int) : Prog Error := do
  let isWindows := decide (w.goos = "windows".toList)
  let isLinuxType := decide (w.goos = "freebsd".toList) || decide (w.goos = "linux".toList)
  if isLinuxType = true then
    let (ver, err) ← getKernelVersion w
    if err ≠ none then
      logf .kernelCheckError
      osExit 1
    else
      let kVer := ver
      if kVer.lt k316 then
        logf .autoTuning
        let (_, err) ← setSharedMemSeg w shmem
        if err ≠ none then
          logf .shmemError
          osExit 1
  else if isWindows = true then
    logf .windowsUnimplemented
  return none

/-- The goroutine body `startExtraService(exeCmd, exeOK)`: a send appends to
the channel. -/
def startExtraService (w : World) (exeCmd : Str) : Prog Unit := do
  logf .startingExtra
  let r ← execCmd w .xstart .start exeCmd []
  if r.err then
    logf .extraStartError
    emit (.send false)
    fun s => ({ s with chan := s.chan ++ [false] }, .ok ())
  else
    emit (.send true)
    fun s => ({ s with chan := s.chan ++ [true] }, .ok ())

/-- The receive `<-chExeCheck`: blocks for ever on an empty channel. -/
def recvExeCheck : Prog Bool := fun s =>
  match s.chan with
  | [] => (s, .blocked)
  | b :: rest => ({ s with chan := rest, trace := s.trace ++ [Event.recv b] }, .ok b)

def stopExtraService (w : World) (xstop : Str) : Prog (Bool × Error) := do
  logf .shuttingDownExtra
  let r ← execCmd w .xstop .run xstop []
  if r.err then
    logf .extraStopFailed
    osExit 1
  return (true, none)

/-- The parsed command-line flags. -/
structure Config where
  inst : Str
  nmsp : Str
  rou : Str
  cstop : Bool
  cstart : Bool
  nostu : Bool
  shmem : Int
  cclog : Bool
  exeStart : Str
  exeStop : Str
  ver : Bool

/-- The flag defaults of lines 476-489. -/
def Config.default : Config :=
  { inst := "CACHE".toList, nmsp := [], rou := [], cstop := true, cstart := true,
    nostu := false, shmem := 512, cclog := false, exeStart := [], exeStop := [],
    ver := false }

/-- The receive `sig := <-cSig`: blocks for ever if no signal arrives. -/
def waitSignal (w : World) : Prog Unit := do
  emit .waitSignal
  if w.signal then pure () else fun s => (s, .blocked)

/-- Phase 1 of `main` (lines 531-566): returns the value of `cstop` after it. -/
def mainStartup (w : World) (cfg : Config) : Prog Bool := do
  if cfg.cstart = true then
    let err ← checkKernelAndShmem w cfg.shmem
    if err ≠ none then
      logf .mainKernelError
      osExit 1
    let (_, err) ← startCache w cfg.inst cfg.nostu cfg.cclog
    if err ≠ none then
      logf .mainStartError
      osExit 1
    else
      logf .cacheUp
    if cfg.rou ≠ [] ∧ cfg.nmsp ≠ [] then
      let (_, err) ← startApp w cfg.inst cfg.nmsp cfg.rou
      if err ≠ none then
        logf .mainAppError
        osExit 1
      else
        logf .appUp
    return cfg.cstop
  else
    return false

/-- Phase 2 of `main` (lines 571-584). -/
def mainExtraStart (w : World) (cfg : Config) : Prog Unit := do
  if cfg.exeStart ≠ [] then
    emit (.spawnExtra cfg.exeStart)
    startExtraService w cfg.exeStart
    let exeOK ← recvExeCheck
    if exeOK ≠ true then
      logf .extraError
    else
      logf .extraUp

/-- Phases 4 and 5 of `main` (lines 607-628). -/
def mainShutdown (w : World) (cfg : Config) (cstop : Bool) : Prog Unit := do
  if cstop = true then
    let (_, err) ← shutdownCache w cfg.inst
    if err ≠ none then
      logf .mainShutdownError
      osExit 1
    else
      logf .cacheDown
  if cfg.exeStop ≠ [] then
    let (_, err) ← stopExtraService w cfg.exeStop
    if err ≠ none then
      logf .mainExtraStopError
      osExit 1
    else
      logf .extraDown

def main (w : World) (cfg : Config) : Prog Unit := do
  if cfg.ver = true then
    emit .printVersion
    osExit 0
  let cstop ← mainStartup w cfg
  mainExtraStart w cfg
  waitSignal w
  logf .signalTrapped
  mainShutdown w cfg cstop

/-! ## The whole process -/

/-- A run of the whole process: its interactions with the outside in the
order in which they happen, and how it ends. -/
structure Run where
  timeline : List Event
  result : Res Unit

/-- The end of a goroutine that stops the whole process: `os.Exit` or a
run-time panic. -/
def Res.stopsProcess {α : Type} : Res α → Bool
  | .exit _ => true
  | .goPanic => true
  | _ => false

/-- Cut the main sequence at `go tailCConsoleLog(inst)`: the interactions
before it, the instance name, and the interactions after it; `none` when the
log follower is never started. -/
def splitAtSpawn : List Event → Option (List Event × Str × List Event)
  | [] => none
  | .spawnTail inst :: rest => some ([], inst, rest)
  | e :: rest =>
    match splitAtSpawn rest with
    | none => none
    | some (before, inst, after) => some (e :: before, inst, after)

/-- The run of the whole process. Without a log follower it is the main
sequence. With one, the follower's interactions are placed after
`t.startAfter` further interactions of the main sequence (never, when the main
sequence has ended before); when the follower ends in `os.Exit` or a panic the
process stops `t.exitAfter` interactions of the main sequence later with the
follower's result, unless the main sequence has ended before; a follower that
returns or keeps printing leaves the main sequence as it is. -/
def process (w : World) (t : TailEnv) (cfg : Config) : Run :=
  let m := main w cfg St.init
  match splitAtSpawn m.1.trace with
  | none => ⟨m.1.trace, m.2⟩
  | some (before, inst, after) =>
    if t.startAfter ≤ after.length ∨ m.2 = .blocked then
      let a := min t.startAfter after.length
      let f := tailCConsoleLog w t inst St.init
      let head := before ++ Event.spawnTail inst :: after.take a ++ f.1.trace
      if f.2.stopsProcess = true ∧ (a + t.exitAfter ≤ after.length ∨ m.2 = .blocked) then
        ⟨head ++ (after.drop a).take t.exitAfter, f.2⟩
      else
        ⟨head ++ after.drop a, m.2⟩
    else
      ⟨m.1.trace, m.2⟩

/-! ## Predicates on runs -/

/-- The lifecycle phase an interaction belongs to: 1 tuning, 2 starting the
primary service, 3 starting the application, 4 starting the auxiliary service,
5 waiting for a signal, 6 stopping the primary service, 7 stopping the
auxiliary service; 0 is for what belongs to no phase of the main sequence
(the version print, the log follower's query). -/
def Site.phase : Site → Nat
  | .uname => 1
  | .sysctl => 1
  | .folder => 0
  | .cstart => 2
  | .qlist what => if what = "down".toList then 6 else 2
  | .session => 3
  | .xstart => 4
  | .cstop => 6
  | .xstop => 7

/-- The lifecycle phase of an event. -/
def Event.phase : Event → Nat
  | .exec site _ _ _ _ => site.phase
  | .spawnTail _ => 2
  | .spawnExtra _ => 4
  | .send _ => 4
  | .recv _ => 4
  | .waitSignal => 5
  | .printVersion => 0

/-- The event is a command run at the call site `site`. -/
def Event.isSite (site : Site) : Event → Prop
  | .exec s _ _ _ _ => s = site
  | _ => False

/-- A step that failed: the command ended with an error; for `uname` also an
answer that `ParseFloat` rejects, for the `qlist` probe also an empty answer.
A failed launch of the auxiliary service is not counted: it is not fatal. -/
def hardFail (w : World) : Event → Prop
  | .exec site _ _ _ r =>
    site ≠ .xstart ∧
      (r.err = true ∨ (site = .uname ∧ ParseFloat w (shortVer r.out) = none) ∨
        ((∃ what, site = .qlist what) ∧ r.out = []))
  | _ => False

/-- A `qlist` probe that answered a non-empty record of fewer than four
caret-delimited fields. -/
def malformed : Event → Prop
  | .exec site _ _ _ r =>
    (∃ what, site = .qlist what) ∧ r.err = false ∧ r.out ≠ [] ∧ (SplitN '^' 4 r.out).length < 4
  | _ => False

/-- Every event of the list that satisfies `fails` is its last one, and then
`fatal` holds. -/
def gated (fails : Event → Prop) (fatal : Prop) : List Event → Prop
  | [] => True
  | e :: rest => (fails e → rest = [] ∧ fatal) ∧ gated fails fatal rest

/-- Change the result type of a result that is not a return. -/
def Res.cast {α β : Type} : Res α → Res β
  | .ok _ => .blocked
  | .exit c => .exit c
  | .goPanic => .goPanic
  | .blocked => .blocked

/-- The program `p`, started with an empty channel, extends the trace by some
`suf` and the log by some `lg`, leaves the channel empty, and `Q suf lg r`
holds of these and its result `r`. -/
def Spec {α : Type} (Q : List Event → List Log → Res α → Prop) (p : Prog α) : Prop :=
  ∀ s : St, s.chan = [] →
    ∃ suf lg, (p s).1 = ⟨s.trace ++ suf, s.logs ++ lg, []⟩ ∧ Q suf lg (p s).2

/-- The outcome of `checkCmdOutcome` given what `ccontrol qlist` answered. -/
def checkRes (resp : Resp) : Res Error :=
  if resp.err = true ∨ resp.out = [] then .exit 1
  else if (SplitN '^' 4 resp.out).length < 4 then .goPanic
  else .ok none

/-- The outcome of `getKernelVersion` given what `uname -r` answered. -/
def kernelRes (w : World) (resp : Resp) : Res (Float64 × Error) :=
  if resp.err = true then .exit 1
  else match ParseFloat w (shortVer resp.out) with
    | none => .exit 1
    | some kVer => .ok (kVer, none)

/-- The event is the start-up probe `ccontrol qlist` of `checkCmdOutcome("up", _)`. -/
def Event.isProbeUp (e : Event) : Prop := e.isSite (.qlist "up".toList)

/-- The event is a `ccontrol start` that ended without error. -/
def Event.isStartOk : Event → Prop
  | .exec site _ _ _ r => site = .cstart ∧ r.err = false
  | _ => False

/-- Every start-up probe of the list comes right after a successful
`ccontrol start`; `prev` is the event before the list, if any. -/
def follows : Option Event → List Event → Prop
  | _, [] => True
  | prev, e :: rest => (e.isProbeUp → ∃ c, prev = some c ∧ c.isStartOk) ∧ follows (some e) rest

/-- The events and results of a piece of the program that runs within the
phases `lo` to `hi`: the phases never go back, failures are fatal on the spot,
and the start-up probe follows a successful start. -/
def Gated {α : Type} (w : World) (lo hi : Nat) (suf : List Event) (r : Res α) : Prop :=
  (∀ e ∈ suf, lo ≤ e.phase ∧ e.phase ≤ hi) ∧
  List.Pairwise (fun a b => a.phase ≤ b.phase) suf ∧
  gated (hardFail w) (r = .exit 1) suf ∧
  gated malformed (r = .goPanic) suf ∧
  follows none suf ∧
  r ≠ .blocked ∧ (∀ c, r = .exit c → c = 1)

/-- The event is a command run by the log follower (`getInstanceFolder` is
called by `tailCConsoleLog` only). -/
def Event.isTail : Event → Bool
  | .exec .folder _ _ _ _ => true
  | _ => false

/-- The event is the start of the log follower. -/
def Event.isSpawnTail : Event → Bool
  | .spawnTail _ => true
  | _ => false

/-- The log follower is started only when console logging is on. -/
def SpawnOk (cclog : Bool) (suf : List Event) : Prop :=
  ∀ e ∈ suf, e.isSpawnTail = true → cclog = true

/-- What the start-up phase of `main` guarantees. -/
def StartupPost (w : World) (cfg : Config) (suf : List Event) (r : Res Bool) : Prop :=
  Gated w 1 3 suf r ∧ (cfg.cstart = false → suf = [] ∧ r = .ok false) ∧
    (r = .ok (cfg.cstart && cfg.cstop) ∨ r = .exit 1 ∨ r = .goPanic) ∧
    SpawnOk cfg.cclog suf

/-- What the auxiliary start of `main` guarantees: it always returns, and
when an auxiliary command is configured exactly one outcome is sent and
received. -/
def ExtraPost (cfg : Config) (suf : List Event) (lg : List Log) (r : Res Unit) : Prop :=
  r = .ok () ∧
    ((cfg.exeStart = [] ∧ suf = []) ∨
      (cfg.exeStart ≠ [] ∧ ∃ resp : Resp,
        suf = [Event.spawnExtra cfg.exeStart, Event.exec .xstart .start cfg.exeStart [] resp,
          Event.send (!resp.err), Event.recv (!resp.err)] ∧
        (resp.err = true → Log.extraError ∈ lg) ∧ (resp.err = false → Log.extraUp ∈ lg)))

/-- What the shutdown phases of `main` guarantee, `cstop` being the stop flag
after start-up. -/
def ShutdownPost (w : World) (cfg : Config) (cstop : Bool) (suf : List Event) (r : Res Unit) :
    Prop :=
  Gated w 6 7 suf r ∧ ((∃ e ∈ suf, e.isSite .cstop) ↔ cstop = true) ∧
    (cstop = false →
      (cfg.exeStop = [] ∧ suf = [] ∧ r = .ok ()) ∨
      (cfg.exeStop ≠ [] ∧ ∃ resp : Resp,
        suf = [Event.exec .xstop .run cfg.exeStop [] resp] ∧
        r = if resp.err = true then .exit 1 else .ok ())) ∧
    (r = .ok () ∨ r = .exit 1 ∨ r = .goPanic)

/-- The shape of a whole run of `main`. -/
def MainPost (w : World) (cfg : Config) (suf : List Event) (lg : List Log) (r : Res Unit) :
    Prop :=
  (cfg.ver = true ∧ suf = [Event.printVersion] ∧ r = .exit 0) ∨
  (cfg.ver = false ∧ ∃ sufS rS, StartupPost w cfg sufS rS ∧
    (((∀ b, rS ≠ .ok b) ∧ suf = sufS ∧ r = rS.cast) ∨
      (∃ b sufX lgX, rS = .ok b ∧ ExtraPost cfg sufX lgX (.ok ()) ∧ (∀ l ∈ lgX, l ∈ lg) ∧
        ((w.signal = false ∧ suf = sufS ++ sufX ++ [Event.waitSignal] ∧ r = .blocked) ∨
          (w.signal = true ∧ ∃ sufD, ShutdownPost w cfg b sufD r ∧
            suf = sufS ++ sufX ++ Event.waitSignal :: sufD)))))

/-- A failed start-up step: the `uname` query, the `sysctl` command,
`ccontrol start` or `ccontrol session` ending with an error, a `uname` answer
that cannot be parsed, or the start-up probe `ccontrol qlist` ending with an
error or answering fewer than four caret-delimited fields (the empty answer
included). A probe that answers a record of four fields is not counted,
whatever the status in it: `checkCmdOutcome` returns `nil` for it. -/
def startupFailure (w : World) : Event → Prop
  | .exec .uname _ _ _ r => r.err = true ∨ ParseFloat w (shortVer r.out) = none
  | .exec .sysctl _ _ _ r => r.err = true
  | .exec .cstart _ _ _ r => r.err = true
  | .exec (.qlist what) _ _ _ r =>
    what = "up".toList ∧ (r.err = true ∨ (SplitN '^' 4 r.out).length < 4)
  | .exec .session _ _ _ r => r.err = true
  | _ => False

/-- The event is a send on `chExeCheck`. -/
def Event.isSend : Event → Bool
  | .send _ => true
  | _ => false

/-- The event is the receive from `chExeCheck`. -/
def Event.isRecv : Event → Prop
  | .recv _ => True
  | _ => False

/-- The rational number a finite `float64` stands for. -/
def Float64.toRat (a : Float64) : ℚ :=
  (if a.neg then -1 else 1) * (a.mant : ℚ) * (2 : ℚ) ^ a.exp

/-- A `uname -r` answer whose major version is a 1 followed by 309 zeros: the
numeral `10^309.0` exceeds the largest finite `float64`. -/
def unameHuge : Str := '1' :: (List.replicate 309 '0' ++ ".0.x".toList)

/-- The rational `q` is a finite `float64` value: plus or minus a mantissa of
at most 53 bits times a power of two with exponent from `-1074` to `971`. -/
def IsFloat64 (q : ℚ) : Prop :=
  ∃ (neg : Bool) (m : ℕ) (e : ℤ), m < 2 ^ 53 ∧ -1074 ≤ e ∧ e ≤ 971 ∧
    q = (if neg then -1 else 1) * (m : ℚ) * (2 : ℚ) ^ e

/-- The least number that rounds beyond the largest finite `float64`:
`2^1024 - 2^970`, half a unit in the last place above `MaxFloat64`. -/
def float64Overflow : ℚ := (2 ^ 54 - 1) * 2 ^ 970

/-! ## Concrete worlds, configurations and records -/

/-- A Linux world in which every command fails and a signal arrives. -/
def worldAllFail : World :=
  { goos := "linux".toList, exec := fun _ _ _ => ⟨true, []⟩, signal := true,
    parseFloatOther := fun _ => none }

/-- A Linux world with a 4.4 kernel in which every command other than `uname`
fails, and a signal arrives. -/
def worldStartFails : World :=
  { goos := "linux".toList,
    exec := fun _ cmd _ =>
      if cmd = "uname".toList then ⟨false, "4.4.0-21-generic".toList⟩ else ⟨true, []⟩,
    signal := true, parseFloatOther := fun _ => none }

/-- The default flags with console logging on (`-cconsole=true`). -/
def cfgConsole : Config := { Config.default with cclog := true }

/-- A log follower whose `ccontrol qlist` fails; it runs after the next
interaction of the main sequence, and its exit takes effect at once. -/
def tailLate : TailEnv :=
  { exec := fun _ _ => ⟨true, []⟩, tailFileErr := fun _ => false, startAfter := 1,
    exitAfter := 0 }

/-- A configuration with start-up disabled and an auxiliary stop command. -/
def cfgNoStart : Config :=
  { Config.default with cstart := false, cstop := true, exeStop := "stop.sh".toList }

/-- A configuration with start-up disabled and no auxiliary command. -/
def cfgIdle : Config := { Config.default with cstart := false }

/-- A Linux world in which `uname -r` answers `unameOut`, `ccontrol qlist`
answers `qlistOut`, every other command succeeds silently, and a signal
arrives. -/
def worldWith (unameOut qlistOut : Str) : World :=
  { goos := "linux".toList,
    exec := fun _ cmd args =>
      if cmd = "uname".toList then ⟨false, unameOut⟩
      else if cmd = "ccontrol".toList ∧ args.head? = some "qlist".toList then ⟨false, qlistOut⟩
      else ⟨false, []⟩,
    signal := true, parseFloatOther := fun _ => none }

/-- A 4.4 kernel on which `ccontrol qlist` answers the empty string. -/
def worldQuiet : World := worldWith "4.4.0-21-generic".toList []

/-- A configuration with start-up disabled and an auxiliary start command. -/
def cfgExtra : Config := { Config.default with cstart := false, exeStart := "start.sh".toList }

/-- A log follower whose `ccontrol qlist` answers the empty string; it runs
after the next interaction of the main sequence, and its exit takes effect one
interaction of the main sequence later. -/
def tailEmpty : TailEnv :=
  { exec := fun _ _ => ⟨false, []⟩, tailFileErr := fun _ => false, startAfter := 1,
    exitAfter := 1 }

/-- The `down` record of the source comment (line 98). -/
def recordDown : Str :=
  "C151^/usr/cachesys^2015.1.0.429.0^down, last used Mon Jun  8 16:40:07 2015^cache.cpf^1972^57772^62972^^".toList

/-- The `sign-on inhibited` record of the source comment (line 97). -/
def recordInhibited : Str :=
  "CACHE142^/Users/CACHE142^2014.2.0.177.0^sign-on inhibited, last used Mon Jun  8 11:31:37 2015^cache.cpf^1972^57772^62972^".toList

/-- The `running` record of the source comment (line 96). -/
def recordRunning : Str :=
  "C151^/usr/cachesys^2015.1.0.429.0^running, since Mon Jun  8 12:00:30 2015^cache.cpf^1972^57772^62972^warn^".toList

/-- A record whose fourth field begins with `running` but is not `running`
up to the comma. -/
def recordRunningLate : Str := "C151^/usr/cachesys^2015.1.0.429.0^running late, since Mon^cache.cpf".toList

/-- A record whose fourth field is exactly `running` and has no comma, while
a later field has one. -/
def recordNoComma : Str := "C151^/usr/cachesys^2015.1.0.429.0^running^cache.cpf^1972,57772".toList

set_option maxRecDepth 100000

/-! ## The program logic -/

theorem bind_apply {α β : Type} (p : Prog α) (f : α → Prog β) (s : St) :
    (p >>= f) s = match p s with
      | (s1, .ok a) => f a s1
      | (s1, .exit c) => (s1, .exit c)
      | (s1, .goPanic) => (s1, .goPanic)
      | (s1, .blocked) => (s1, .blocked) := rfl

theorem spec_mono {α : Type} {Q Q' : List Event → List Log → Res α → Prop} {p : Prog α}
    (h : Spec Q p) (himp : ∀ suf lg r, Q suf lg r → Q' suf lg r) : Spec Q' p := by
  intro s hs
  obtain ⟨suf, lg, h1, h2⟩ := h s hs
  exact ⟨suf, lg, h1, himp _ _ _ h2⟩

theorem spec_pure {α : Type} {Q : List Event → List Log → Res α → Prop} {a : α}
    (h : Q [] [] (.ok a)) : Spec Q (pure a) := by
  intro s hs
  refine ⟨[], [], ?_, h⟩
  cases s; simp_all [pure]

theorem spec_osExit {α : Type} {Q : List Event → List Log → Res α → Prop} {c : Nat}
    (h : Q [] [] (.exit c)) : Spec Q (osExit c) := by
  intro s hs
  refine ⟨[], [], ?_, h⟩
  cases s; simp_all [osExit]

theorem spec_ite {α : Type} {Q : List Event → List Log → Res α → Prop} {c : Prop} [Decidable c]
    {p q : Prog α} (hp : c → Spec Q p) (hq : ¬ c → Spec Q q) : Spec Q (if c then p else q) := by
  by_cases h : c
  · simpa [h] using hp h
  · simpa [h] using hq h

theorem spec_bind {α β : Type} {Q1 : List Event → List Log → Res α → Prop}
    {Q : List Event → List Log → Res β → Prop} {p : Prog α} {f : α → Prog β}
    (hp : Spec Q1 p)
    (hf : ∀ a suf1 lg1, Q1 suf1 lg1 (.ok a) →
      Spec (fun suf2 lg2 r => Q (suf1 ++ suf2) (lg1 ++ lg2) r) (f a))
    (hstop : ∀ suf lg r, (∀ a, r ≠ .ok a) → Q1 suf lg r → Q suf lg r.cast) :
    Spec Q (p >>= f) := by
  intro s hs
  obtain ⟨suf1, lg1, h1, h2⟩ := hp s hs
  rw [bind_apply]
  rcases hps : p s with ⟨s1, r⟩
  rw [hps] at h1 h2
  simp only at h1 h2
  subst h1
  cases r with
  | ok a =>
    obtain ⟨suf2, lg2, h3, h4⟩ := hf a suf1 lg1 h2 ⟨s.trace ++ suf1, s.logs ++ lg1, []⟩ rfl
    refine ⟨suf1 ++ suf2, lg1 ++ lg2, ?_, h4⟩
    simp only [h3, List.append_assoc]
  | exit c => exact ⟨suf1, lg1, rfl, hstop _ _ _ (by simp) h2⟩
  | goPanic => exact ⟨suf1, lg1, rfl, hstop _ _ _ (by simp) h2⟩
  | blocked => exact ⟨suf1, lg1, rfl, hstop _ _ _ (by simp) h2⟩

theorem spec_logf {l : Log} :
    Spec (fun suf lg r => suf = [] ∧ lg = [l] ∧ r = .ok ()) (logf l) := by
  intro s hs
  refine ⟨[], [l], ?_, rfl, rfl, rfl⟩
  cases s; simp_all [logf]

theorem spec_emit {e : Event} :
    Spec (fun suf lg r => suf = [e] ∧ lg = [] ∧ r = .ok ()) (emit e) := by
  intro s hs
  refine ⟨[e], [], ?_, rfl, rfl, rfl⟩
  cases s; simp_all [emit]

theorem spec_execCmd {w : World} {site : Site} {mode : Mode} {cmd : Str} {args : List Str} :
    Spec (fun suf lg r => ∃ resp, suf = [Event.exec site mode cmd args resp] ∧ lg = [] ∧
      r = .ok resp) (execCmd w site mode cmd args) := by
  intro s hs
  refine ⟨[Event.exec site mode cmd args (w.exec s.trace.length cmd args)], [], ?_, _, rfl, rfl, rfl⟩
  cases s; simp_all [execCmd]

theorem spec_bind_logf {β : Type} {Q : List Event → List Log → Res β → Prop} {l : Log}
    {f : Unit → Prog β} (h : Spec (fun suf lg r => Q suf (l :: lg) r) (f ())) :
    Spec Q (logf l >>= f) := by
  refine spec_bind spec_logf ?_ ?_
  · rintro a suf1 lg1 ⟨rfl, rfl, -⟩
    simpa using h
  · rintro suf lg r hr ⟨-, -, rfl⟩
    exact absurd rfl (hr ())

theorem spec_bind_emit {β : Type} {Q : List Event → List Log → Res β → Prop} {e : Event}
    {f : Unit → Prog β} (h : Spec (fun suf lg r => Q (e :: suf) lg r) (f ())) :
    Spec Q (emit e >>= f) := by
  refine spec_bind spec_emit ?_ ?_
  · rintro a suf1 lg1 ⟨rfl, rfl, -⟩
    simpa using h
  · rintro suf lg r hr ⟨-, -, rfl⟩
    exact absurd rfl (hr ())

theorem spec_bind_exec {β : Type} {Q : List Event → List Log → Res β → Prop} {w : World}
    {site : Site} {mode : Mode} {cmd : Str} {args : List Str} {f : Resp → Prog β}
    (h : ∀ resp, Spec (fun suf lg r => Q (Event.exec site mode cmd args resp :: suf) lg r) (f resp)) :
    Spec Q (execCmd w site mode cmd args >>= f) := by
  refine spec_bind spec_execCmd ?_ ?_
  · rintro a suf1 lg1 ⟨resp, rfl, rfl, h2⟩
    cases h2
    simpa using h a
  · rintro suf lg r hr ⟨resp, -, -, rfl⟩
    exact absurd rfl (hr resp)

theorem spec_bind_osExit {α β : Type} {Q : List Event → List Log → Res β → Prop} {c : Nat}
    {f : α → Prog β} (h : Q [] [] (.exit c)) : Spec Q ((osExit c : Prog α) >>= f) := by
  intro s hs
  refine ⟨[], [], ?_, h⟩
  cases s; simp_all [osExit, bind_apply]

theorem spec_bind_goPanic {α β : Type} {Q : List Event → List Log → Res β → Prop}
    {f : α → Prog β} (h : Q [] [] .goPanic) : Spec Q ((goPanic : Prog α) >>= f) := by
  intro s hs
  refine ⟨[], [], ?_, h⟩
  cases s; simp_all [goPanic, bind_apply]

theorem spec_bind_pure {α β : Type} {Q : List Event → List Log → Res β → Prop} {a : α}
    {f : α → Prog β} (h : Spec Q (f a)) : Spec Q (pure a >>= f) := h

/-! ## Facts about the library functions -/

theorem SplitN_succ_ne_nil (sep : Char) (n : Nat) (s : Str) : SplitN sep (n + 1) s ≠ [] := by
  induction s generalizing n with
  | nil => cases n <;> simp [SplitN]
  | cons c cs ih =>
    cases n with
    | zero => simp [SplitN]
    | succ n =>
      simp only [SplitN]
      split
      · simp
      · split <;> simp

/-! ## What each function does to the trace -/

theorem spec_checkCmdOutcome (w : World) (what inst : Str) :
    Spec (fun suf _ r => ∃ resp,
        suf = [Event.exec (.qlist what) .output "ccontrol".toList ["qlist".toList, inst] resp] ∧
        r = checkRes resp)
      (checkCmdOutcome w what inst) := by
  unfold checkCmdOutcome
  refine spec_bind_exec fun resp => ?_
  refine spec_ite (fun h => ?_) (fun h => ?_)
  · exact spec_bind_logf (spec_bind_osExit ⟨resp, rfl, by simp [checkRes, h]⟩)
  · refine spec_ite (fun h2 => ?_) (fun h2 => ?_)
    · exact spec_bind_logf (spec_bind_osExit ⟨resp, rfl, by simp [checkRes, h2]⟩)
    · refine spec_bind_pure ?_
      dsimp only
      split
      · rename_i h3
        rw [List.getElem?_eq_none_iff] at h3
        refine spec_bind_goPanic ⟨resp, rfl, ?_⟩
        have : (SplitN '^' 4 resp.out).length < 4 := by omega
        simp [checkRes, h, h2, this]
      · rename_i field h3
        have h4 : ¬ (SplitN '^' 4 resp.out).length < 4 := by
          have := (List.getElem?_eq_some_iff.1 h3).1
          omega
        have hres : checkRes resp = .ok none := by simp [checkRes, h, h2, h4]
        split
        · rename_i h5
          rw [List.getElem?_eq_none_iff] at h5
          have := SplitN_succ_ne_nil ',' 1 field
          simp at h5
          exact absurd h5 this
        · refine spec_ite (fun _ => ?_) (fun _ => ?_)
          · exact spec_bind_logf (spec_pure ⟨resp, rfl, hres.symm⟩)
          · refine spec_ite (fun _ => ?_) (fun _ => ?_)
            · exact spec_bind_logf (spec_pure ⟨resp, rfl, hres.symm⟩)
            · refine spec_ite (fun _ => ?_) (fun _ => ?_)
              · exact spec_bind_logf (spec_pure ⟨resp, rfl, hres.symm⟩)
              · exact spec_bind_logf (spec_pure ⟨resp, rfl, hres.symm⟩)

theorem spec_setSharedMemSeg (w : World) (t : Int) :
    Spec (fun suf _ r => ∃ resp,
        suf = [Event.exec .sysctl .run "sysctl".toList ["-w".toList, kernelParamShmmax t] resp] ∧
        r = if resp.err = true then .exit 1 else .ok (true, none))
      (setSharedMemSeg w t) := by
  unfold setSharedMemSeg
  refine spec_ite (fun _ => ?_) (fun _ => ?_)
  · refine spec_bind_logf (spec_bind_exec fun resp => ?_)
    refine spec_ite (fun h => ?_) (fun h => ?_)
    · exact spec_bind_logf (spec_bind_osExit ⟨resp, rfl, by simp [h]⟩)
    · exact spec_bind_pure (spec_pure ⟨resp, rfl, by simp [h]⟩)
  · refine spec_bind_pure (spec_bind_exec fun resp => ?_)
    refine spec_ite (fun h => ?_) (fun h => ?_)
    · exact spec_bind_logf (spec_bind_osExit ⟨resp, rfl, by simp [h]⟩)
    · exact spec_bind_pure (spec_pure ⟨resp, rfl, by simp [h]⟩)

theorem spec_getKernelVersion (w : World) :
    Spec (fun suf _ r => ∃ resp,
        suf = [Event.exec .uname .run "uname".toList ["-r".toList] resp] ∧ r = kernelRes w resp)
      (getKernelVersion w) := by
  unfold getKernelVersion
  refine spec_bind_exec fun resp => ?_
  refine spec_ite (fun h => ?_) (fun h => ?_)
  · exact spec_bind_logf (spec_osExit ⟨resp, rfl, by simp [kernelRes, h]⟩)
  · dsimp only
    split
    · rename_i h2
      exact spec_bind_logf (spec_osExit ⟨resp, rfl, by simp [kernelRes, h, h2]⟩)
    · rename_i k h2
      exact spec_pure ⟨resp, rfl, by simp [kernelRes, h, h2]⟩

theorem spec_startApp (w : World) (inst nmsp rou : Str) :
    Spec (fun suf _ r => ∃ resp,
        suf = [Event.exec .session .run "ccontrol".toList
          ["session".toList, inst, "-U".toList, nmsp, rou] resp] ∧
        r = if resp.err = true then .exit 1 else .ok (true, none))
      (startApp w inst nmsp rou) := by
  unfold startApp
  refine spec_bind_logf (spec_bind_exec fun resp => ?_)
  refine spec_ite (fun h => ?_) (fun h => ?_)
  · exact spec_bind_logf (spec_bind_osExit ⟨resp, rfl, by simp [h]⟩)
  · exact spec_bind_pure (spec_pure ⟨resp, rfl, by simp [h]⟩)

theorem spec_stopExtraService (w : World) (xstop : Str) :
    Spec (fun suf _ r => ∃ resp,
        suf = [Event.exec .xstop .run xstop [] resp] ∧
        r = if resp.err = true then .exit 1 else .ok (true, none))
      (stopExtraService w xstop) := by
  unfold stopExtraService
  refine spec_bind_logf (spec_bind_exec fun resp => ?_)
  refine spec_ite (fun h => ?_) (fun h => ?_)
  · exact spec_bind_logf (spec_bind_osExit ⟨resp, rfl, by simp [h]⟩)
  · exact spec_bind_pure (spec_pure ⟨resp, rfl, by simp [h]⟩)

/-! ## Facts about traces -/

theorem gated_no_fail {fails : Event → Prop} {fatal : Prop} {l : List Event}
    (h : gated fails fatal l) (hf : ¬ fatal) : ∀ e ∈ l, ¬ fails e := by
  induction l with
  | nil => simp
  | cons a l ih =>
    intro e he
    rcases List.mem_cons.1 he with rfl | he
    · exact fun hfa => hf (h.1 hfa).2
    · exact ih h.2 e he

theorem gated_append {fails : Event → Prop} {fatal : Prop} {l1 l2 : List Event}
    (h1 : ∀ e ∈ l1, ¬ fails e) (h2 : gated fails fatal l2) : gated fails fatal (l1 ++ l2) := by
  induction l1 with
  | nil => simpa using h2
  | cons a l ih =>
    refine ⟨fun ha => absurd ha (h1 a (List.mem_cons_self _ _)), ?_⟩
    exact ih fun e he => h1 e (List.mem_cons_of_mem _ he)

theorem gated_split {fails : Event → Prop} {fatal : Prop} {l : List Event}
    (h : gated fails fatal l) {pre post : List Event} {e : Event} (hl : l = pre ++ e :: post)
    (he : fails e) : post = [] ∧ fatal := by
  induction pre generalizing l with
  | nil => subst hl; exact h.1 he
  | cons a pre ih => subst hl; exact ih h.2 rfl

theorem follows_mono {l : List Event} (h : follows none l) (p : Option Event) : follows p l := by
  cases l with
  | nil => trivial
  | cons a l =>
    refine ⟨fun ha => ?_, h.2⟩
    obtain ⟨c, hc, -⟩ := h.1 ha
    cases hc

theorem follows_append {l1 l2 : List Event} {p : Option Event}
    (h1 : follows p l1) (h2 : follows none l2) : follows p (l1 ++ l2) := by
  induction l1 generalizing p with
  | nil => exact follows_mono h2 p
  | cons a l ih => exact ⟨h1.1, ih h1.2⟩

theorem follows_split {l : List Event} {p : Option Event} (h : follows p l)
    {pre post : List Event} {e : Event} (hl : l = pre ++ e :: post) (he : e.isProbeUp) :
    ∃ c, c.isStartOk ∧ ((pre = [] ∧ p = some c) ∨ ∃ pre', pre = pre' ++ [c]) := by
  induction pre generalizing l p with
  | nil =>
    subst hl
    obtain ⟨c, hc, hs⟩ := h.1 he
    exact ⟨c, hs, Or.inl ⟨rfl, hc⟩⟩
  | cons a pre ih =>
    subst hl
    obtain ⟨c, hs, hc⟩ := ih h.2 rfl
    refine ⟨c, hs, Or.inr ?_⟩
    rcases hc with ⟨rfl, hc⟩ | ⟨pre', rfl⟩
    · cases hc
      exact ⟨[], rfl⟩
    · exact ⟨a :: pre', rfl⟩

theorem Gated_append {α β : Type} {w : World} {lo1 hi1 lo2 hi2 : Nat} {suf1 suf2 : List Event}
    {a : α} {r : Res β} (h1 : Gated w lo1 hi1 suf1 (.ok a)) (h2 : Gated w lo2 hi2 suf2 r)
    (hlo : lo1 ≤ lo2) (hmid : hi1 ≤ lo2) (hhi : hi1 ≤ hi2) :
    Gated w lo1 hi2 (suf1 ++ suf2) r := by
  obtain ⟨a1, a2, a3, a4, a5, -, -⟩ := h1
  obtain ⟨b1, b2, b3, b4, b5, b6, b7⟩ := h2
  refine ⟨?_, ?_, ?_, ?_, follows_append a5 b5, b6, b7⟩
  · intro e he
    rcases List.mem_append.1 he with he | he
    · have := a1 e he; omega
    · have := b1 e he; omega
  · rw [List.pairwise_append]
    refine ⟨a2, b2, fun x hx y hy => ?_⟩
    have := a1 x hx
    have := b1 y hy
    omega
  · exact gated_append (gated_no_fail a3 (by simp)) b3
  · exact gated_append (gated_no_fail a4 (by simp)) b4

theorem Gated_weaken {α : Type} {w : World} {lo hi lo2 hi2 : Nat} {suf : List Event} {r : Res α}
    (h : Gated w lo hi suf r) (hlo : lo2 ≤ lo) (hhi : hi ≤ hi2) : Gated w lo2 hi2 suf r := by
  obtain ⟨a1, a2, a3, a4, a5, a6, a7⟩ := h
  refine ⟨fun e he => ?_, a2, a3, a4, a5, a6, a7⟩
  have := a1 e he
  omega

theorem Gated_cast {α β : Type} {w : World} {lo hi : Nat} {suf : List Event} {r : Res α}
    (h : Gated w lo hi suf r) (hr : ∀ a, r ≠ .ok a) : Gated w lo hi suf (r.cast : Res β) := by
  obtain ⟨a1, a2, a3, a4, a5, a6, a7⟩ := h
  cases r with
  | ok a => exact absurd rfl (hr a)
  | exit c => exact ⟨a1, a2, by simpa [Res.cast] using a3, by simpa [Res.cast] using a4, a5,
      by simp [Res.cast], by simpa [Res.cast] using a7⟩
  | goPanic => exact ⟨a1, a2, by simpa [Res.cast] using a3, by simpa [Res.cast] using a4, a5,
      by simp [Res.cast], by simp [Res.cast]⟩
  | blocked => exact absurd rfl a6

theorem Gated_ok {α β : Type} {w : World} {lo hi : Nat} {suf : List Event} {a : α} (b : β)
    (h : Gated w lo hi suf (.ok a)) : Gated w lo hi suf (.ok b) := by
  obtain ⟨a1, a2, a3, a4, a5, -, -⟩ := h
  exact ⟨a1, a2, by simpa using a3, by simpa using a4, a5, by simp, by simp⟩

theorem Gated_nil {α : Type} (w : World) (lo hi : Nat) (a : α) : Gated w lo hi [] (.ok a) := by
  simp [Gated, gated, follows]

theorem SpawnOk_append {c : Bool} {l1 l2 : List Event} (h1 : SpawnOk c l1) (h2 : SpawnOk c l2) :
    SpawnOk c (l1 ++ l2) := by
  intro e he
  rcases List.mem_append.1 he with he | he
  · exact h1 e he
  · exact h2 e he

theorem SpawnOk_of_Gated {α : Type} {w : World} {lo hi : Nat} {suf : List Event} {r : Res α}
    (c : Bool) (h : Gated w lo hi suf r) (hne : hi < 2 ∨ 2 < lo) : SpawnOk c suf := by
  intro e he hs
  have := h.1 e he
  cases e <;> simp [Event.isSpawnTail, Event.phase] at hs this
  omega

theorem kernelRes_cases (w : World) (resp : Resp) :
    (kernelRes w resp = .exit 1 ∧
      (resp.err = true ∨ ParseFloat w (shortVer resp.out) = none)) ∨
    (∃ k, kernelRes w resp = .ok (k, none) ∧ resp.err = false ∧
      ParseFloat w (shortVer resp.out) = some k) := by
  unfold kernelRes
  by_cases h : resp.err = true
  · simp [h]
  · cases h2 : ParseFloat w (shortVer resp.out) <;> simp [h, h2]

theorem checkRes_cases (resp : Resp) :
    (checkRes resp = .exit 1 ∧ (resp.err = true ∨ resp.out = [])) ∨
    (checkRes resp = .goPanic ∧ resp.err = false ∧ resp.out ≠ [] ∧
      (SplitN '^' 4 resp.out).length < 4) ∨
    (checkRes resp = .ok none ∧ resp.err = false ∧ resp.out ≠ [] ∧
      ¬ (SplitN '^' 4 resp.out).length < 4) := by
  unfold checkRes
  by_cases h : resp.err = true
  · simp [h]
  · by_cases h2 : resp.out = []
    · simp [h2]
    · by_cases h3 : (SplitN '^' 4 resp.out).length < 4
      · simp [h, h2, h3]
      · simp [h, h2, h3]

theorem spec_checkKernelAndShmem (w : World) (shmem : Int) :
    Spec (fun suf _ r => Gated w 1 1 suf r ∧ (r = .ok none ∨ r = .exit 1))
      (checkKernelAndShmem w shmem) := by
  unfold checkKernelAndShmem
  dsimp only
  refine spec_ite (fun _ => ?_) (fun _ => ?_)
  · refine spec_bind (spec_getKernelVersion w) ?_ ?_
    · rintro ⟨ver, err⟩ suf1 lg1 ⟨resp, rfl, hr⟩
      rcases kernelRes_cases w resp with ⟨h1, -⟩ | ⟨k, h1, h2, h3⟩
      · rw [h1] at hr; cases hr
      · rw [h1] at hr
        cases hr
        dsimp only
        refine spec_ite (fun h => absurd rfl h) (fun _ => ?_)
        refine spec_ite (fun _ => ?_) (fun _ => ?_)
        · refine spec_bind_logf (spec_bind (spec_setSharedMemSeg w shmem) ?_ ?_)
          · rintro ⟨b, err2⟩ suf2 lg2 ⟨resp2, rfl, hr2⟩
            by_cases h4 : resp2.err = true
            · simp [h4] at hr2
            · simp only [h4, if_false] at hr2
              cases hr2
              dsimp only
              refine spec_ite (fun h => absurd rfl h) (fun _ => ?_)
              refine spec_bind_pure (spec_pure ?_)
              simp [Gated, gated, follows, Event.isProbeUp, Event.isSite, hardFail, malformed, Event.phase, Site.phase, h2, h3, h4]
          · rintro suf lg r hr ⟨resp2, rfl, rfl⟩
            by_cases h4 : resp2.err = true
            · simp [Gated, gated, follows, Event.isProbeUp, Event.isSite, hardFail, malformed, Event.phase, Site.phase, h2, h3, h4,
                Res.cast]
            · simp [h4] at hr
        · refine spec_bind_pure (spec_pure ?_)
          simp [Gated, gated, follows, Event.isProbeUp, Event.isSite, hardFail, malformed, Event.phase, Site.phase, h2, h3]
    · rintro suf lg r hr ⟨resp, rfl, rfl⟩
      rcases kernelRes_cases w resp with ⟨h1, h2⟩ | ⟨k, h1, -, -⟩
      · rw [h1]
        simp only [Gated, gated, follows, Event.isProbeUp, Event.isSite, hardFail, malformed, Event.phase, Site.phase, Res.cast]
        simp
      · rw [h1] at hr
        exact absurd rfl (hr _)
  · refine spec_ite (fun _ => ?_) (fun _ => ?_)
    · exact spec_bind_logf (spec_pure (by simp [Gated, gated, follows]))
    · exact spec_bind_pure (spec_pure (by simp [Gated, gated, follows]))

theorem spec_startCache (w : World) (inst : Str) (nostu cclog : Bool) :
    Spec (fun suf _ r => Gated w 2 2 suf r ∧
        (r = .ok (true, none) ∨ r = .exit 1 ∨ r = .goPanic) ∧ SpawnOk cclog suf)
      (startCache w inst nostu cclog) := by
  unfold startCache
  dsimp only
  refine spec_bind_logf ?_
  refine spec_ite (fun hc => spec_bind_emit ?_) (fun hc => spec_bind_pure ?_) <;>
  · refine spec_bind_exec fun resp => ?_
    refine spec_ite (fun h => ?_) (fun h => ?_)
    · refine spec_bind_logf (spec_bind_osExit ?_)
      simp [Gated, gated, follows, Event.isProbeUp, Event.isSite, hardFail, malformed,
        Event.phase, Site.phase, h, SpawnOk, Event.isSpawnTail, hc]
    · refine spec_bind_pure (spec_bind (spec_checkCmdOutcome w _ inst) ?_ ?_)
      · rintro err suf1 lg1 ⟨rq, rfl, hr⟩
        rcases checkRes_cases rq with ⟨h1, -⟩ | ⟨h1, -⟩ | ⟨h1, h2, h3, h4⟩
        · rw [h1] at hr; cases hr
        · rw [h1] at hr; cases hr
        · rw [h1] at hr
          cases hr
          refine spec_ite (fun h => absurd rfl h) (fun _ => ?_)
          refine spec_bind_pure (spec_pure ?_)
          simp [Gated, gated, follows, Event.isProbeUp, Event.isSite, Event.isStartOk, hardFail,
            malformed, Event.phase, Site.phase, h, h2, h3, h4, SpawnOk, Event.isSpawnTail, hc]
      · rintro suf lg r hr ⟨rq, rfl, rfl⟩
        rcases checkRes_cases rq with ⟨h1, h2⟩ | ⟨h1, h2, h3, h4⟩ | ⟨h1, -⟩
        · rw [h1]
          rcases h2 with h2 | h2 <;>
          simp [Gated, gated, follows, Event.isProbeUp, Event.isSite, Event.isStartOk, hardFail,
            malformed, Event.phase, Site.phase, h, h2, Res.cast, SpawnOk, Event.isSpawnTail, hc]
        · rw [h1]
          simp [Gated, gated, follows, Event.isProbeUp, Event.isSite, Event.isStartOk, hardFail,
            malformed, Event.phase, Site.phase, h, h2, h3, h4, Res.cast, SpawnOk, Event.isSpawnTail,
            hc]
        · rw [h1] at hr
          exact absurd rfl (hr _)

theorem spec_startApp_gated (w : World) (inst nmsp rou : Str) :
    Spec (fun suf _ r => Gated w 3 3 suf r ∧ (r = .ok (true, none) ∨ r = .exit 1))
      (startApp w inst nmsp rou) := by
  refine spec_mono (spec_startApp w inst nmsp rou) ?_
  rintro suf lg r ⟨resp, rfl, rfl⟩
  by_cases h : resp.err = true <;>
  simp [Gated, gated, follows, Event.isProbeUp, Event.isSite, hardFail, malformed, Event.phase,
    Site.phase, h]

theorem spec_shutdownCache (w : World) (inst : Str) :
    Spec (fun suf _ r => Gated w 6 6 suf r ∧ (∃ e ∈ suf, e.isSite .cstop) ∧
        (r = .ok (true, none) ∨ r = .exit 1 ∨ r = .goPanic))
      (shutdownCache w inst) := by
  unfold shutdownCache
  refine spec_bind_logf (spec_bind_exec fun resp => ?_)
  refine spec_ite (fun h => ?_) (fun h => ?_)
  · refine spec_bind_logf (spec_bind_osExit ?_)
    simp [Gated, gated, follows, Event.isProbeUp, Event.isSite, hardFail, malformed,
      Event.phase, Site.phase, h]
  · refine spec_bind_pure (spec_bind (spec_checkCmdOutcome w _ inst) ?_ ?_)
    · rintro err suf1 lg1 ⟨rq, rfl, hr⟩
      rcases checkRes_cases rq with ⟨h1, -⟩ | ⟨h1, -⟩ | ⟨h1, h2, h3, h4⟩
      · rw [h1] at hr; cases hr
      · rw [h1] at hr; cases hr
      · rw [h1] at hr
        cases hr
        refine spec_ite (fun h => absurd rfl h) (fun _ => ?_)
        refine spec_bind_pure (spec_pure ?_)
        simp [Gated, gated, follows, Event.isProbeUp, Event.isSite, Event.isStartOk, hardFail,
          malformed, Event.phase, Site.phase, h, h2, h3, h4]
    · rintro suf lg r hr ⟨rq, rfl, rfl⟩
      rcases checkRes_cases rq with ⟨h1, h2⟩ | ⟨h1, h2, h3, h4⟩ | ⟨h1, -⟩
      · rw [h1]
        rcases h2 with h2 | h2 <;>
        simp [Gated, gated, follows, Event.isProbeUp, Event.isSite, Event.isStartOk, hardFail,
          malformed, Event.phase, Site.phase, h, h2, Res.cast]
      · rw [h1]
        simp [Gated, gated, follows, Event.isProbeUp, Event.isSite, Event.isStartOk, hardFail,
          malformed, Event.phase, Site.phase, h, h2, h3, h4, Res.cast]
      · rw [h1] at hr
        exact absurd rfl (hr _)

theorem spec_mainStartup (w : World) (cfg : Config) :
    Spec (fun suf _ r => StartupPost w cfg suf r) (mainStartup w cfg) := by
  unfold mainStartup
  refine spec_ite (fun hc => ?_) (fun hc => ?_)
  · refine spec_bind (spec_checkKernelAndShmem w cfg.shmem) ?_ ?_
    · rintro err sufK lgK ⟨hK, hr⟩
      have herr : err = none := by rcases hr with hr | hr <;> cases hr; rfl
      subst herr
      have hKp : SpawnOk cfg.cclog sufK := SpawnOk_of_Gated _ hK (Or.inl (by omega))
      refine spec_ite (fun h => absurd rfl h) (fun _ => ?_)
      refine spec_bind_pure (spec_bind (spec_startCache w cfg.inst cfg.nostu cfg.cclog) ?_ ?_)
      · rintro ⟨b, err⟩ sufS lgS ⟨hS, hr, hSp⟩
        have herr : err = none := by rcases hr with hr | hr | hr <;> cases hr; rfl
        subst herr
        dsimp only
        have hKS : Gated w 1 2 (sufK ++ sufS) (.ok () : Res Unit) :=
          Gated_ok () (Gated_append hK hS (by omega) (by omega) (by omega))
        have hKSp : SpawnOk cfg.cclog (sufK ++ sufS) := SpawnOk_append hKp hSp
        refine spec_ite (fun h => absurd rfl h) (fun _ => ?_)
        refine spec_bind_logf ?_
        refine spec_ite (fun _ => ?_) (fun _ => ?_)
        · refine spec_bind (spec_startApp_gated w cfg.inst cfg.nmsp cfg.rou) ?_ ?_
          · rintro ⟨b2, err2⟩ sufA lgA ⟨hA, hr⟩
            have herr : err2 = none := by rcases hr with hr | hr <;> cases hr; rfl
            subst herr
            dsimp only
            refine spec_ite (fun h => absurd rfl h) (fun _ => ?_)
            refine spec_bind_logf (spec_pure ?_)
            refine ⟨?_, fun h => ?_, Or.inl ?_, ?_⟩
            · simpa using Gated_ok cfg.cstop
                (Gated_append hKS hA (by omega) (by omega) (by omega))
            · simp [h] at hc
            · simp [hc]
            · simpa using SpawnOk_append hKSp
                (SpawnOk_of_Gated cfg.cclog hA (Or.inr (by omega)))
          · rintro sufA lgA r hr ⟨hA, hres⟩
            refine ⟨?_, fun h => ?_, ?_, ?_⟩
            · simpa using Gated_append hKS (Gated_cast hA hr) (by omega) (by omega) (by omega)
            · simp [h] at hc
            · rcases hres with rfl | rfl
              · exact absurd rfl (hr _)
              · simp [Res.cast]
            · simpa using SpawnOk_append hKSp
                (SpawnOk_of_Gated cfg.cclog hA (Or.inr (by omega)))
        · refine spec_bind_pure (spec_pure ?_)
          refine ⟨?_, fun h => ?_, Or.inl ?_, ?_⟩
          · simpa using Gated_weaken (Gated_ok cfg.cstop hKS) (le_refl _) (by omega)
          · simp [h] at hc
          · simp [hc]
          · simpa using hKSp
      · rintro sufS lgS r hr ⟨hS, hres, hSp⟩
        refine ⟨?_, fun h => ?_, ?_, SpawnOk_append hKp hSp⟩
        · exact Gated_weaken (Gated_append hK (Gated_cast hS hr) (by omega) (by omega)
            (by omega)) (le_refl _) (by omega)
        · simp [h] at hc
        · rcases hres with rfl | rfl | rfl
          · exact absurd rfl (hr _)
          · simp [Res.cast]
          · simp [Res.cast]
    · rintro sufK lgK r hr ⟨hK, hres⟩
      refine ⟨Gated_weaken (Gated_cast hK hr) (le_refl _) (by omega), fun h => ?_, ?_,
        SpawnOk_of_Gated _ hK (Or.inl (by omega))⟩
      · simp [h] at hc
      · rcases hres with rfl | rfl
        · exact absurd rfl (hr _)
        · simp [Res.cast]
  · refine spec_pure ⟨Gated_nil w 1 3 _, fun _ => ⟨rfl, rfl⟩, Or.inl ?_, fun e he => ?_⟩
    · simp [hc]
    · simp at he

theorem spec_stopExtraService_gated (w : World) (xstop : Str) :
    Spec (fun suf _ r => Gated w 7 7 suf r ∧ ∃ resp,
        suf = [Event.exec .xstop .run xstop [] resp] ∧
        r = if resp.err = true then .exit 1 else .ok (true, none))
      (stopExtraService w xstop) := by
  refine spec_mono (spec_stopExtraService w xstop) ?_
  rintro suf lg r ⟨resp, rfl, rfl⟩
  refine ⟨?_, resp, rfl, rfl⟩
  by_cases h : resp.err = true <;>
  simp [Gated, gated, follows, Event.isProbeUp, Event.isSite, hardFail, malformed, Event.phase,
    Site.phase, h]

theorem spec_mainShutdown_tail (w : World) (cfg : Config) :
    Spec (fun suf _ r => Gated w 7 7 suf r ∧
        ((cfg.exeStop = [] ∧ suf = [] ∧ r = .ok ()) ∨
          (cfg.exeStop ≠ [] ∧ ∃ resp : Resp,
            suf = [Event.exec .xstop .run cfg.exeStop [] resp] ∧
            r = if resp.err = true then .exit 1 else .ok ())))
      (if cfg.exeStop ≠ [] then do
        let (_, err) ← stopExtraService w cfg.exeStop
        if err ≠ none then
          logf .mainExtraStopError
          osExit 1
        else
          logf .extraDown
      else pure ()) := by
  refine spec_ite (fun hx => ?_) (fun hx => ?_)
  · refine spec_bind (spec_stopExtraService_gated w cfg.exeStop) ?_ ?_
    · rintro ⟨b, err⟩ suf1 lg1 ⟨hG, resp, rfl, hr⟩
      by_cases h : resp.err = true
      · simp [h] at hr
      · simp only [h, if_false] at hr
        cases hr
        dsimp only
        refine spec_ite (fun h => absurd rfl h) (fun _ => ?_)
        refine spec_mono spec_logf ?_
        rintro suf lg r ⟨rfl, -, rfl⟩
        refine ⟨by simpa using Gated_ok () hG, Or.inr ⟨hx, resp, by simp, by simp [h]⟩⟩
    · rintro suf lg r hr ⟨hG, resp, rfl, rfl⟩
      by_cases h : resp.err = true
      · refine ⟨Gated_cast hG hr, Or.inr ⟨hx, resp, rfl, by simp [h, Res.cast]⟩⟩
      · simp [h] at hr
  · refine spec_pure ⟨Gated_nil w 7 7 _, Or.inl ⟨by simpa using hx, rfl, rfl⟩⟩

theorem spec_mainShutdown (w : World) (cfg : Config) (cstop : Bool) :
    Spec (fun suf _ r => ShutdownPost w cfg cstop suf r) (mainShutdown w cfg cstop) := by
  unfold mainShutdown
  dsimp only
  refine spec_ite (fun hc => ?_) (fun hc => ?_)
  · refine spec_bind (spec_shutdownCache w cfg.inst) ?_ ?_
    · rintro ⟨b, err⟩ sufC lgC ⟨hC, hmem, hr⟩
      have herr : err = none := by rcases hr with hr | hr | hr <;> cases hr; rfl
      subst herr
      dsimp only
      refine spec_ite (fun h => absurd rfl h) (fun _ => ?_)
      refine spec_bind_logf ?_
      refine spec_mono (spec_mainShutdown_tail w cfg) ?_
      rintro sufX lg r ⟨hX, hshape⟩
      refine ⟨Gated_append hC hX (by omega) (by omega) (by omega), ?_, fun h => ?_, ?_⟩
      · obtain ⟨e, he, hs⟩ := hmem
        simp only [hc, iff_true]
        exact ⟨e, List.mem_append_left _ he, hs⟩
      · simp [h] at hc
      · rcases hshape with ⟨-, -, rfl⟩ | ⟨-, resp, -, rfl⟩
        · simp
        · by_cases h : resp.err = true <;> simp [h]
    · rintro sufC lgC r hr ⟨hC, hmem, hres⟩
      refine ⟨Gated_weaken (Gated_cast hC hr) (le_refl _) (by omega), ?_, fun h => ?_, ?_⟩
      · simp only [hc, iff_true]
        exact hmem
      · simp [h] at hc
      · rcases hres with rfl | rfl | rfl
        · exact absurd rfl (hr _)
        · simp [Res.cast]
        · simp [Res.cast]
  · refine spec_bind_pure ?_
    refine spec_mono (spec_mainShutdown_tail w cfg) ?_
    rintro sufX lg r ⟨hX, hshape⟩
    have hcf : cstop = false := by simpa using hc
    refine ⟨Gated_weaken hX (by omega) (le_refl _), ?_, fun _ => hshape, ?_⟩
    · simp only [hcf, Bool.false_eq_true, iff_false, not_exists, not_and]
      intro e he
      rcases hshape with ⟨-, rfl, -⟩ | ⟨-, resp, rfl, -⟩
      · simp at he
      · simp only [List.mem_singleton] at he
        subst he
        simp [Event.isSite]
    · rcases hshape with ⟨-, -, rfl⟩ | ⟨-, resp, -, rfl⟩
      · simp
      · by_cases h : resp.err = true <;> simp [h]

theorem spec_mainExtraStart (w : World) (cfg : Config) :
    Spec (fun suf lg r => ExtraPost cfg suf lg r) (mainExtraStart w cfg) := by
  intro s hs
  obtain ⟨tr, lg, ch⟩ := s
  simp only at hs
  subst hs
  unfold mainExtraStart
  by_cases hx : cfg.exeStart = []
  · refine ⟨[], [], ?_, ?_⟩
    · simp [hx, pure]
    · simp [hx, pure, ExtraPost]
  · by_cases he : (w.exec (tr.length + 1) cfg.exeStart []).err = true
    · refine ⟨[Event.spawnExtra cfg.exeStart, Event.exec .xstart .start cfg.exeStart []
          (w.exec (tr.length + 1) cfg.exeStart []), Event.send false, Event.recv false],
        [Log.startingExtra, Log.extraStartError, Log.extraError], ?_, ?_⟩
      · simp [hx, bind_apply, emit, startExtraService, logf, execCmd, recvExeCheck, he, pure]
      · simp [hx, bind_apply, emit, startExtraService, logf, execCmd, recvExeCheck, he, pure,
          ExtraPost]
    · refine ⟨[Event.spawnExtra cfg.exeStart, Event.exec .xstart .start cfg.exeStart []
          (w.exec (tr.length + 1) cfg.exeStart []), Event.send true, Event.recv true],
        [Log.startingExtra, Log.extraUp], ?_, ?_⟩
      · simp [hx, bind_apply, emit, startExtraService, logf, execCmd, recvExeCheck, he, pure]
      · simp [hx, bind_apply, emit, startExtraService, logf, execCmd, recvExeCheck, he, pure,
          ExtraPost]

theorem spec_waitSignal (w : World) :
    Spec (fun suf lg r => suf = [Event.waitSignal] ∧ lg = [] ∧
        r = if w.signal = true then .ok () else .blocked)
      (waitSignal w) := by
  intro s hs
  obtain ⟨tr, lg, ch⟩ := s
  simp only at hs
  subst hs
  refine ⟨[Event.waitSignal], [], ?_, rfl, rfl, ?_⟩ <;>
  · unfold waitSignal
    by_cases h : w.signal = true <;> simp [bind_apply, emit, h, pure]

theorem spec_main (w : World) (cfg : Config) :
    Spec (fun suf lg r => MainPost w cfg suf lg r) (main w cfg) := by
  unfold main
  refine spec_ite (fun hv => ?_) (fun hv => ?_)
  · refine spec_bind_emit (spec_bind_osExit ?_)
    exact Or.inl ⟨hv, rfl, rfl⟩
  · have hvf : cfg.ver = false := by simpa using hv
    refine spec_bind_pure (spec_bind (spec_mainStartup w cfg) ?_ ?_)
    · rintro b sufS lgS hS
      refine spec_bind (spec_mainExtraStart w cfg) ?_ ?_
      · rintro ⟨⟩ sufX lgX hX
        refine spec_bind (spec_waitSignal w) ?_ ?_
        · rintro ⟨⟩ sufW lgW ⟨rfl, rfl, hr⟩
          have hsig : w.signal = true := by
            by_cases h : w.signal = true
            · exact h
            · simp [h] at hr
          refine spec_bind_logf (spec_mono (spec_mainShutdown w cfg b) ?_)
          rintro sufD lgD r hD
          refine Or.inr ⟨hvf, sufS, _, hS, Or.inr ⟨b, sufX, lgX, rfl, hX, ?_, Or.inr ⟨hsig, sufD, hD, ?_⟩⟩⟩
          · intro l hl
            simp [hl]
          · simp
        · rintro sufW lgW r hr ⟨rfl, rfl, rfl⟩
          have hsig : w.signal = false := by
            by_cases h : w.signal = true
            · simp [h] at hr
            · simpa using h
          refine Or.inr ⟨hvf, sufS, _, hS, Or.inr ⟨b, sufX, lgX, rfl, hX, ?_, Or.inl ⟨hsig, ?_, ?_⟩⟩⟩
          · intro l hl
            simp [hl]
          · simp
          · simp [hsig, Res.cast]
      · rintro sufX lgX r hr hX
        exact absurd hX.1 (hr ())
    · rintro sufS lgS r hr hS
      exact Or.inr ⟨hvf, sufS, r, hS, Or.inl ⟨hr, rfl, rfl⟩⟩

/-- The shape of every run of `main` from the initial state. -/
theorem main_post (w : World) (cfg : Config) :
    MainPost w cfg (main w cfg St.init).1.trace (main w cfg St.init).1.logs
      (main w cfg St.init).2 := by
  obtain ⟨suf, lg, h1, h2⟩ := spec_main w cfg St.init rfl
  rw [h1]
  simpa [St.init] using h2

/-! ## Facts about the `float64` rounding -/

theorem bitLenAux_zero (fuel : Nat) : bitLenAux fuel 0 = 0 := by
  cases fuel <;> simp [bitLenAux]

theorem bitLenAux_spec (fuel n : Nat) (h : n ≤ fuel) :
    n < 2 ^ bitLenAux fuel n ∧ (0 < n → 2 ^ (bitLenAux fuel n - 1) ≤ n) := by
  induction fuel generalizing n with
  | zero =>
    have : n = 0 := by omega
    subst this
    simp [bitLenAux]
  | succ f ih =>
    by_cases hn : n = 0
    · subst hn
      simp [bitLenAux]
    · simp only [bitLenAux, hn, if_false, Nat.add_sub_cancel]
      obtain ⟨h1, h2⟩ := ih (n / 2) (by omega)
      refine ⟨?_, fun _ => ?_⟩
      · rw [pow_succ]
        omega
      · by_cases h3 : n / 2 = 0
        · rw [h3, bitLenAux_zero]
          simp
          omega
        · have h4 := h2 (by omega)
          have h5 : bitLenAux f (n / 2) ≠ 0 := by
            intro h0
            rw [h0] at h1
            simp at h1
            exact h3 h1
          obtain ⟨k, hk⟩ : ∃ k, bitLenAux f (n / 2) = k + 1 := ⟨_, (Nat.succ_pred h5).symm⟩
          rw [hk] at h4 ⊢
          simp only [Nat.add_sub_cancel] at h4
          rw [pow_succ]
          omega

theorem bitLen_spec (n : Nat) (hn : 0 < n) :
    (2 : ℚ) ^ ((bitLen n : ℤ) - 1) ≤ n ∧ (n : ℚ) < (2 : ℚ) ^ (bitLen n : ℤ) := by
  obtain ⟨h1, h2⟩ := bitLenAux_spec n n (le_refl _)
  have h3 := h2 hn
  have hb : bitLen n ≠ 0 := by
    intro h0
    unfold bitLen at h0
    rw [h0] at h1
    simp at h1
    omega
  obtain ⟨k, hk⟩ : ∃ k, bitLen n = k + 1 := ⟨_, (Nat.succ_pred hb).symm⟩
  have hk2 : bitLenAux n n = k + 1 := hk
  rw [hk2] at h1 h3
  simp only [Nat.add_sub_cancel] at h3
  rw [hk]
  constructor
  · have : ((k + 1 : ℕ) : ℤ) - 1 = (k : ℤ) := by push_cast; ring
    rw [this, zpow_natCast]
    exact_mod_cast h3
  · rw [zpow_natCast]
    exact_mod_cast h1

theorem zpow_two_split (d : ℤ) :
    (2 : ℚ) ^ d = (2 : ℚ) ^ d.toNat / (2 : ℚ) ^ (-d).toNat := by
  rcases le_or_lt 0 d with h | h
  · have h1 : (-d).toNat = 0 := by omega
    have h2 : (d.toNat : ℤ) = d := Int.toNat_of_nonneg h
    rw [h1, pow_zero, div_one, ← zpow_natCast, h2]
  · have h1 : d.toNat = 0 := by omega
    have h2 : ((-d).toNat : ℤ) = -d := Int.toNat_of_nonneg (by omega)
    rw [h1, pow_zero, ← zpow_natCast, h2, zpow_neg, one_div, inv_inv]

theorem scaled_ratio (N D : Nat) (hD : 0 < D) (e : ℤ) :
    (((N * 2 ^ (-e).toNat : ℕ) : ℚ)) / ((D * 2 ^ e.toNat : ℕ) : ℚ) = (N : ℚ) / D / (2 : ℚ) ^ e := by
  rw [zpow_two_split e]
  have h1 : (D : ℚ) ≠ 0 := by exact_mod_cast hD.ne'
  have h2 : ((2 : ℚ) ^ e.toNat) ≠ 0 := by positivity
  have h3 : ((2 : ℚ) ^ (-e).toNat) ≠ 0 := by positivity
  push_cast
  field_simp

theorem floorLog2_spec (N D : Nat) (hN : 0 < N) (hD : 0 < D) :
    (2 : ℚ) ^ floorLog2 N D ≤ (N : ℚ) / D ∧ (N : ℚ) / D < (2 : ℚ) ^ (floorLog2 N D + 1) := by
  obtain ⟨n1, n2⟩ := bitLen_spec N hN
  obtain ⟨d1, d2⟩ := bitLen_spec D hD
  have hDq : (0 : ℚ) < D := by exact_mod_cast hD
  have hNq : (0 : ℚ) < N := by exact_mod_cast hN
  set d : ℤ := (bitLen N : ℤ) - (bitLen D : ℤ) with hd
  have hcond : (D * 2 ^ d.toNat ≤ N * 2 ^ (-d).toNat) ↔ (2 : ℚ) ^ d ≤ (N : ℚ) / D := by
    rw [zpow_two_split d, le_div_iff₀ hDq, div_mul_eq_mul_div, div_le_iff₀ (by positivity)]
    constructor
    · intro h
      have : ((D * 2 ^ d.toNat : ℕ) : ℚ) ≤ ((N * 2 ^ (-d).toNat : ℕ) : ℚ) := by exact_mod_cast h
      push_cast at this
      linarith
    · intro h
      have : ((D * 2 ^ d.toNat : ℕ) : ℚ) ≤ ((N * 2 ^ (-d).toNat : ℕ) : ℚ) := by
        push_cast
        linarith
      exact_mod_cast this
  have hup : (N : ℚ) / D < (2 : ℚ) ^ (d + 1) := by
    rw [div_lt_iff₀ hDq]
    have h1 : (2 : ℚ) ^ (d + 1) * (2 : ℚ) ^ ((bitLen D : ℤ) - 1) = (2 : ℚ) ^ (bitLen N : ℤ) := by
      rw [← zpow_add₀ (by norm_num : (2 : ℚ) ≠ 0)]
      congr 1
      omega
    have h2 : (0 : ℚ) < (2 : ℚ) ^ (d + 1) := by positivity
    calc (N : ℚ) < (2 : ℚ) ^ (bitLen N : ℤ) := n2
      _ = (2 : ℚ) ^ (d + 1) * (2 : ℚ) ^ ((bitLen D : ℤ) - 1) := h1.symm
      _ ≤ (2 : ℚ) ^ (d + 1) * D := by exact mul_le_mul_of_nonneg_left d1 h2.le
  have hlo : (2 : ℚ) ^ (d - 1) ≤ (N : ℚ) / D := by
    rw [le_div_iff₀ hDq]
    have h1 : (2 : ℚ) ^ (d - 1) * (2 : ℚ) ^ (bitLen D : ℤ) = (2 : ℚ) ^ ((bitLen N : ℤ) - 1) := by
      rw [← zpow_add₀ (by norm_num : (2 : ℚ) ≠ 0)]
      congr 1
      omega
    have h2 : (0 : ℚ) < (2 : ℚ) ^ (d - 1) := by positivity
    calc (2 : ℚ) ^ (d - 1) * D ≤ (2 : ℚ) ^ (d - 1) * (2 : ℚ) ^ (bitLen D : ℤ) :=
          mul_le_mul_of_nonneg_left d2.le h2.le
      _ = (2 : ℚ) ^ ((bitLen N : ℤ) - 1) := h1
      _ ≤ N := n1
  unfold floorLog2
  simp only
  rw [← hd]
  by_cases hc : D * 2 ^ d.toNat ≤ N * 2 ^ (-d).toNat
  · rw [if_pos hc]
    exact ⟨hcond.1 hc, hup⟩
  · rw [if_neg hc]
    refine ⟨hlo, ?_⟩
    have : d - 1 + 1 = d := by ring
    rw [this]
    exact lt_of_not_le fun h => hc (hcond.2 h)

theorem roundHalfEven_spec (n d : Nat) (hd : 0 < d) :
    |(roundHalfEven n d : ℚ) - (n : ℚ) / d| ≤ 1 / 2 ∧
    (∀ a : ℕ, a * d ≤ n → a ≤ roundHalfEven n d) ∧
    (∀ b : ℕ, n ≤ b * d → roundHalfEven n d ≤ b) := by
  have hdiv := Nat.div_add_mod n d
  have hmod := Nat.mod_lt n hd
  have hdq : (0 : ℚ) < d := by exact_mod_cast hd
  have hnq : (n : ℚ) = d * (n / d : ℕ) + (n % d : ℕ) := by exact_mod_cast hdiv.symm
  have hrq : ((n % d : ℕ) : ℚ) < d := by exact_mod_cast hmod
  have hr0 : (0 : ℚ) ≤ ((n % d : ℕ) : ℚ) := by positivity
  have hcases : (roundHalfEven n d = n / d ∧ 2 * (n % d) ≤ d) ∨
      (roundHalfEven n d = n / d + 1 ∧ d ≤ 2 * (n % d)) := by
    unfold roundHalfEven
    simp only
    split_ifs with h1 h2 h3
    · left; exact ⟨rfl, by omega⟩
    · right; exact ⟨rfl, by omega⟩
    · left; exact ⟨rfl, by omega⟩
    · right; exact ⟨rfl, by omega⟩
  refine ⟨?_, fun a ha => ?_, fun b hb => ?_⟩
  · have key : (n : ℚ) / d = (n / d : ℕ) + ((n % d : ℕ) : ℚ) / d := by
      rw [hnq]
      field_simp
      ring
    rw [key, abs_le]
    rcases hcases with ⟨hm, h2⟩ | ⟨hm, h2⟩
    · have h2q : 2 * ((n % d : ℕ) : ℚ) ≤ d := by exact_mod_cast h2
      have h3 : ((n % d : ℕ) : ℚ) / d ≤ 1 / 2 := by
        rw [div_le_iff₀ hdq]
        linarith
      have h4 : (0 : ℚ) ≤ ((n % d : ℕ) : ℚ) / d := by positivity
      rw [hm]
      constructor <;> linarith
    · have h2q : (d : ℚ) ≤ 2 * ((n % d : ℕ) : ℚ) := by exact_mod_cast h2
      have h3 : 1 / 2 ≤ ((n % d : ℕ) : ℚ) / d := by
        rw [le_div_iff₀ hdq]
        linarith
      have h4 : ((n % d : ℕ) : ℚ) / d ≤ 1 := by
        rw [div_le_iff₀ hdq]
        linarith
      rw [hm]
      push_cast
      constructor <;> linarith
  · have h1 : a ≤ n / d := (Nat.le_div_iff_mul_le hd).2 ha
    rcases hcases with ⟨hm, -⟩ | ⟨hm, -⟩ <;> omega
  · have h1 : n / d ≤ b := Nat.div_le_of_le_mul (by rw [Nat.mul_comm]; exact hb)
    rcases hcases with ⟨hm, -⟩ | ⟨hm, h2⟩
    · omega
    · have h3 : n / d < b := by
        by_contra hcon
        have h4 : b = n / d := by omega
        rw [h4] at hb
        have : n / d * d = d * (n / d) := Nat.mul_comm _ _
        omega
      omega

theorem roundHalfEven_tie (n d : Nat) (hd : 0 < d)
    (h : |(roundHalfEven n d : ℚ) - (n : ℚ) / d| = 1 / 2) : roundHalfEven n d % 2 = 0 := by
  have hdiv := Nat.div_add_mod n d
  have hmod := Nat.mod_lt n hd
  have hdq : (0 : ℚ) < d := by exact_mod_cast hd
  have hnq : (n : ℚ) = d * (n / d : ℕ) + (n % d : ℕ) := by exact_mod_cast hdiv.symm
  have hr0 : (0 : ℚ) ≤ ((n % d : ℕ) : ℚ) := by positivity
  have hrq : ((n % d : ℕ) : ℚ) < d := by exact_mod_cast hmod
  have key : (n : ℚ) / d = (n / d : ℕ) + ((n % d : ℕ) : ℚ) / d := by
    rw [hnq]
    field_simp
    ring
  have h4 : (0 : ℚ) ≤ ((n % d : ℕ) : ℚ) / d := by positivity
  have h5 : ((n % d : ℕ) : ℚ) / d < 1 := by
    rw [div_lt_iff₀ hdq]
    linarith
  rw [key] at h
  unfold roundHalfEven at h ⊢
  simp only at h ⊢
  split_ifs at h ⊢ with h1 h2 h3
  · exfalso
    have h1q : 2 * ((n % d : ℕ) : ℚ) < d := by exact_mod_cast h1
    have h6 : ((n % d : ℕ) : ℚ) / d < 1 / 2 := by
      rw [div_lt_iff₀ hdq]
      linarith
    rw [show ((n / d : ℕ) : ℚ) - (((n / d : ℕ) : ℚ) + ((n % d : ℕ) : ℚ) / d) =
      -(((n % d : ℕ) : ℚ) / d) by ring, abs_neg, abs_of_nonneg h4] at h
    linarith
  · exfalso
    have h2q : (d : ℚ) < 2 * ((n % d : ℕ) : ℚ) := by exact_mod_cast h2
    have h6 : 1 / 2 < ((n % d : ℕ) : ℚ) / d := by
      rw [lt_div_iff₀ hdq]
      linarith
    push_cast at h
    rw [show ((n / d : ℕ) : ℚ) + 1 - (((n / d : ℕ) : ℚ) + ((n % d : ℕ) : ℚ) / d) =
      1 - ((n % d : ℕ) : ℚ) / d by ring, abs_of_nonneg (by linarith)] at h
    linarith
  · exact h3
  · omega

theorem nearest_integer (m n : ℕ) (y : ℚ) (h : |(m : ℚ) - y| ≤ 1 / 2) :
    |(m : ℚ) - y| ≤ |(n : ℚ) - y| := by
  by_cases hmn : m = n
  · rw [hmn]
  · have h1 : (1 : ℚ) ≤ |(n : ℚ) - (m : ℚ)| := by
      rcases Nat.lt_or_gt_of_ne hmn with h2 | h2
      · have : (m : ℚ) + 1 ≤ n := by exact_mod_cast h2
        rw [abs_of_nonneg (by linarith)]
        linarith
      · have : (n : ℚ) + 1 ≤ m := by exact_mod_cast h2
        rw [abs_of_nonpos (by linarith)]
        linarith
    have h2 : |(n : ℚ) - (m : ℚ)| ≤ |(n : ℚ) - y| + |(m : ℚ) - y| := by
      have := abs_sub_le (n : ℚ) y m
      rwa [abs_sub_comm y (m : ℚ)] at this
    linarith

theorem ten_pow_308_lt : (10 : ℚ) ^ 308 < float64Overflow := by
  unfold float64Overflow
  norm_num

theorem float64Overflow_lt : float64Overflow < (2 : ℚ) ^ (1024 : ℤ) := by
  unfold float64Overflow
  rw [show ((1024 : ℤ)) = ((1024 : ℕ) : ℤ) by norm_num, zpow_natCast]
  norm_num

theorem float64Overflow_ge : (2 : ℚ) ^ (1023 : ℤ) ≤ float64Overflow := by
  unfold float64Overflow
  rw [show ((1023 : ℤ)) = ((1023 : ℕ) : ℤ) by norm_num, zpow_natCast]
  norm_num

theorem float64Overflow_div : float64Overflow / (2 : ℚ) ^ (971 : ℤ) = 2 ^ 53 - 1 / 2 := by
  unfold float64Overflow
  rw [show ((971 : ℤ)) = ((971 : ℕ) : ℤ) by norm_num, zpow_natCast]
  norm_num

/-- The rounding `roundFloat64` is the IEEE-754 one: a positive rational below
`float64Overflow` rounds to a finite non-negative `float64` that is nearest to
it among all `float64` values, with an even mantissa when another `float64`
is just as near; a rational at or above `float64Overflow` has no finite
rounding. -/
theorem roundFloat64_nearest (N D : Nat) (hN : 0 < N) (hD : 0 < D) :
    ((N : ℚ) / D < float64Overflow → ∃ f, roundFloat64 N D = some f ∧ f.neg = false ∧
      IsFloat64 f.toRat ∧
      (∀ g, IsFloat64 g → |f.toRat - (N : ℚ) / D| ≤ |g - (N : ℚ) / D|) ∧
      (∀ g, IsFloat64 g → g ≠ f.toRat → |g - (N : ℚ) / D| = |f.toRat - (N : ℚ) / D| →
        f.mant % 2 = 0)) ∧
    (float64Overflow ≤ (N : ℚ) / D → roundFloat64 N D = none) := by
  obtain ⟨k1, k2⟩ := floorLog2_spec N D hN hD
  set k := floorLog2 N D with hk
  set e : ℤ := max (k - 52) (-1074) with he
  set N1 := N * 2 ^ (-e).toNat with hN1
  set D1 := D * 2 ^ e.toNat with hD1
  have hD1pos : 0 < D1 := Nat.mul_pos hD (by positivity)
  have hD1q : (0 : ℚ) < D1 := by exact_mod_cast hD1pos
  have hy : (N1 : ℚ) / D1 = (N : ℚ) / D / (2 : ℚ) ^ e := scaled_ratio N D hD e
  have h2e : (0 : ℚ) < (2 : ℚ) ^ e := by positivity
  obtain ⟨r1, r2, r3⟩ := roundHalfEven_spec N1 D1 hD1pos
  have rtie := roundHalfEven_tie N1 D1 hD1pos
  set m := roundHalfEven N1 D1 with hm
  set y : ℚ := (N1 : ℚ) / D1 with hyd
  have hxpos : (0 : ℚ) < (N : ℚ) / D := by positivity
  have hx : (N : ℚ) / D = y * (2 : ℚ) ^ e := by
    rw [hy]
    field_simp
    ring
  have he1074 : -1074 ≤ e := le_max_right _ _
  have hek : k - 52 ≤ e := le_max_left _ _
  have hunf : roundFloat64 N D =
      if 971 < e ∨ (e = 971 ∧ 2 ^ 53 ≤ m) then none else some ⟨false, m, e⟩ := by
    unfold roundFloat64
    rw [if_neg (by omega)]
  have hm53 : m ≤ 2 ^ 53 := by
    apply r3
    have h1 : y ≤ ((2 ^ 53 : ℕ) : ℚ) := by
      rw [hy, div_le_iff₀ h2e]
      have h2 : (2 : ℚ) ^ (k + 1) ≤ ((2 ^ 53 : ℕ) : ℚ) * (2 : ℚ) ^ e := by
        have : ((2 ^ 53 : ℕ) : ℚ) = (2 : ℚ) ^ (53 : ℤ) := by norm_num
        rw [this, ← zpow_add₀ (by norm_num : (2 : ℚ) ≠ 0)]
        exact zpow_le_zpow_right₀ (by norm_num) (by omega)
      exact le_trans k2.le h2
    rw [hyd, div_le_iff₀ hD1q] at h1
    exact_mod_cast h1
  have hgrid : ∀ n : ℕ, |(m : ℚ) * (2 : ℚ) ^ e - (N : ℚ) / D| ≤
      |(n : ℚ) * (2 : ℚ) ^ e - (N : ℚ) / D| := by
    intro n
    rw [hx, ← sub_mul, ← sub_mul, abs_mul, abs_mul, abs_of_pos h2e]
    exact mul_le_mul_of_nonneg_right (nearest_integer m n y r1) h2e.le
  constructor
  · intro hlt
    have hk1023 : k ≤ 1023 := by
      have : (2 : ℚ) ^ k < (2 : ℚ) ^ (1024 : ℤ) :=
        lt_of_le_of_lt k1 (lt_trans hlt float64Overflow_lt)
      have := (zpow_lt_zpow_iff_right₀ (by norm_num : (1 : ℚ) < 2)).1 this
      omega
    have he971 : e ≤ 971 := by omega
    have hnofl : ¬ (971 < e ∨ (e = 971 ∧ 2 ^ 53 ≤ m)) := by
      rintro (h | ⟨h1, h2⟩)
      · omega
      · have h3 : y < 2 ^ 53 - 1 / 2 := by
          rw [hy, h1, ← float64Overflow_div]
          exact div_lt_div_of_pos_right hlt (by positivity)
        have h4 : (m : ℚ) - y ≤ 1 / 2 := (abs_le.1 r1).2
        have h5 : ((2 ^ 53 : ℕ) : ℚ) ≤ m := by exact_mod_cast h2
        push_cast at h5
        linarith
    have hstrict : ∀ g, IsFloat64 g →
        (∃ n : ℕ, g = (n : ℚ) * (2 : ℚ) ^ e) ∨
          |(m : ℚ) * (2 : ℚ) ^ e - (N : ℚ) / D| < |g - (N : ℚ) / D| := by
      rintro g ⟨neg, m1, e1, hm1, he1a, he1b, rfl⟩
      have h2e1 : (0 : ℚ) < (2 : ℚ) ^ e1 := by positivity
      cases neg with
      | true =>
        by_cases hz : m1 = 0
        · left
          exact ⟨0, by simp [hz]⟩
        · right
          have hm1pos : (0 : ℚ) < m1 := by exact_mod_cast Nat.pos_of_ne_zero hz
          simp only [if_true]
          have hg : (-1 : ℚ) * (m1 : ℚ) * (2 : ℚ) ^ e1 < 0 := by
            have : (0 : ℚ) < (m1 : ℚ) * (2 : ℚ) ^ e1 := by positivity
            linarith
          have h0 := hgrid 0
          simp only [Nat.cast_zero, zero_mul, zero_sub, abs_neg, abs_of_pos hxpos] at h0
          have h1 : |(-1 : ℚ) * (m1 : ℚ) * (2 : ℚ) ^ e1 - (N : ℚ) / D| =
              -((-1 : ℚ) * (m1 : ℚ) * (2 : ℚ) ^ e1 - (N : ℚ) / D) :=
            abs_of_neg (by linarith)
          rw [h1]
          linarith
      | false =>
        simp only [Bool.false_eq_true, if_false, one_mul]
        by_cases hee : e ≤ e1
        · left
          refine ⟨m1 * 2 ^ (e1 - e).toNat, ?_⟩
          have h1 : (2 : ℚ) ^ e1 = (2 : ℚ) ^ (e1 - e).toNat * (2 : ℚ) ^ e := by
            rw [← zpow_natCast, Int.toNat_of_nonneg (by omega),
              ← zpow_add₀ (by norm_num : (2 : ℚ) ≠ 0)]
            congr 1
            ring
          rw [h1]
          push_cast
          ring
        · right
          have hek2 : e = k - 52 := by omega
          have h252 : ((2 ^ 52 : ℕ) : ℚ) * (2 : ℚ) ^ e = (2 : ℚ) ^ k := by
            have : ((2 ^ 52 : ℕ) : ℚ) = (2 : ℚ) ^ (52 : ℤ) := by norm_num
            rw [this, ← zpow_add₀ (by norm_num : (2 : ℚ) ≠ 0)]
            congr 1
            omega
          have hg1 : (m1 : ℚ) * (2 : ℚ) ^ e1 < (2 : ℚ) ^ k := by
            have h1 : (m1 : ℚ) < (2 : ℚ) ^ (53 : ℤ) := by
              have h53 : ((2 ^ 53 : ℕ) : ℚ) = (2 : ℚ) ^ (53 : ℤ) := by norm_num
              have : (m1 : ℚ) < ((2 ^ 53 : ℕ) : ℚ) := by exact_mod_cast hm1
              rwa [h53] at this
            have h2 : (2 : ℚ) ^ (53 : ℤ) * (2 : ℚ) ^ e1 ≤ (2 : ℚ) ^ k := by
              rw [← zpow_add₀ (by norm_num : (2 : ℚ) ≠ 0)]
              exact zpow_le_zpow_right₀ (by norm_num) (by omega)
            calc (m1 : ℚ) * (2 : ℚ) ^ e1 < (2 : ℚ) ^ (53 : ℤ) * (2 : ℚ) ^ e1 :=
                  mul_lt_mul_of_pos_right h1 h2e1
              _ ≤ (2 : ℚ) ^ k := h2
          have h0 := hgrid (2 ^ 52)
          have h3 : |(2 : ℚ) ^ k - (N : ℚ) / D| = -((2 : ℚ) ^ k - (N : ℚ) / D) :=
            abs_of_nonpos (by linarith)
          have h4 : |(m1 : ℚ) * (2 : ℚ) ^ e1 - (N : ℚ) / D| =
              -((m1 : ℚ) * (2 : ℚ) ^ e1 - (N : ℚ) / D) :=
            abs_of_neg (by linarith)
          rw [h252, h3] at h0
          rw [h4]
          linarith
    refine ⟨⟨false, m, e⟩, ?_, rfl, ?_, ?_, ?_⟩
    · rw [hunf, if_neg hnofl]
    · simp only [Float64.toRat, Bool.false_eq_true, if_false, one_mul]
      by_cases hmlt : m < 2 ^ 53
      · exact ⟨false, m, e, hmlt, he1074, he971, by simp⟩
      · have hmeq : m = 2 ^ 53 := by omega
        have he970 : e ≠ 971 := fun h => hnofl (Or.inr ⟨h, by omega⟩)
        refine ⟨false, 2 ^ 52, e + 1, by norm_num, by omega, by omega, ?_⟩
        rw [hmeq, zpow_add_one₀ (by norm_num : (2 : ℚ) ≠ 0)]
        push_cast
        ring
    · intro g hg
      simp only [Float64.toRat, Bool.false_eq_true, if_false, one_mul]
      rcases hstrict g hg with ⟨n, rfl⟩ | h
      · exact hgrid n
      · exact h.le
    · intro g hg hne heq
      simp only [Float64.toRat, Bool.false_eq_true, if_false, one_mul] at hne heq ⊢
      rcases hstrict g hg with ⟨n, rfl⟩ | h
      · apply rtie
        have hnm : n ≠ m := fun h => hne (by rw [h])
        rw [hx, ← sub_mul, ← sub_mul, abs_mul, abs_mul, abs_of_pos h2e] at heq
        have heq2 : |(n : ℚ) - y| = |(m : ℚ) - y| := by
          have := mul_right_cancel₀ h2e.ne' heq
          exact this
        have h1 : (1 : ℚ) ≤ |(n : ℚ) - (m : ℚ)| := by
          rcases Nat.lt_or_gt_of_ne hnm with h2 | h2
          · have : (n : ℚ) + 1 ≤ m := by exact_mod_cast h2
            rw [abs_of_nonpos (by linarith)]
            linarith
          · have : (m : ℚ) + 1 ≤ n := by exact_mod_cast h2
            rw [abs_of_nonneg (by linarith)]
            linarith
        have h2 : |(n : ℚ) - (m : ℚ)| ≤ |(n : ℚ) - y| + |(m : ℚ) - y| := by
          have := abs_sub_le (n : ℚ) y m
          rwa [abs_sub_comm y (m : ℚ)] at this
        have h3 : 1 / 2 ≤ |(m : ℚ) - y| := by linarith
        exact le_antisymm r1 h3
      · exact absurd heq (ne_of_gt h)
  · intro hge
    have hk1023 : 1023 ≤ k := by
      have : (2 : ℚ) ^ (1023 : ℤ) < (2 : ℚ) ^ (k + 1) :=
        lt_of_le_of_lt (le_trans float64Overflow_ge hge) k2
      have := (zpow_lt_zpow_iff_right₀ (by norm_num : (1 : ℚ) < 2)).1 this
      omega
    have hek2 : e = k - 52 := by omega
    rw [hunf, if_pos]
    by_cases hk2 : k = 1023
    · right
      have he971 : e = 971 := by omega
      refine ⟨he971, ?_⟩
      have h3 : 2 ^ 53 - 1 / 2 ≤ y := by
        rw [hy, he971, ← float64Overflow_div]
        exact div_le_div_of_nonneg_right hge (by positivity)
      have h4 : y - (m : ℚ) ≤ 1 / 2 := by
        have := (abs_le.1 r1).1
        linarith
      have h5 : ((2 ^ 53 - 1 : ℕ) : ℚ) ≤ m := by
        push_cast
        linarith
      have h6 : 2 ^ 53 - 1 ≤ m := by exact_mod_cast h5
      by_contra hcon
      have hmeq : m = 2 ^ 53 - 1 := by omega
      have h7 : |(m : ℚ) - y| = 1 / 2 := by
        apply le_antisymm r1
        rw [abs_of_nonpos]
        · have : (m : ℚ) = 2 ^ 53 - 1 := by
            rw [hmeq]
            push_cast
            ring
          linarith
        · have : (m : ℚ) = 2 ^ 53 - 1 := by
            rw [hmeq]
            push_cast
            ring
          linarith
      have h8 := rtie h7
      omega
    · left
      omega

/-! ## Whole runs -/

theorem gated_congr {fails : Event → Prop} {f1 f2 : Prop} {l : List Event} (h : f1 → f2)
    (hg : gated fails f1 l) : gated fails f2 l := by
  induction l with
  | nil => trivial
  | cons a l ih => exact ⟨fun ha => ⟨(hg.1 ha).1, h (hg.1 ha).2⟩, ih hg.2⟩

theorem extra_gated (w : World) {cfg : Config} {sufX : List Event} {lgX : List Log}
    (h : ExtraPost cfg sufX lgX (.ok ())) : Gated w 4 4 sufX (.ok () : Res Unit) := by
  rcases h.2 with ⟨-, rfl⟩ | ⟨-, resp, rfl, -⟩
  · exact Gated_nil w 4 4 ()
  · simp [Gated, gated, follows, Event.isProbeUp, Event.isSite, hardFail, malformed, Event.phase,
      Site.phase]

theorem wait_gated (w : World) : Gated w 5 5 [Event.waitSignal] (.ok () : Res Unit) := by
  simp [Gated, gated, follows, Event.isProbeUp, Event.isSite, hardFail, malformed, Event.phase]

/-- In every run the phases never go back, a failed step is the last
interaction and ends the run with status 1, a malformed probe answer is the
last interaction and ends the run in a panic, and the start-up probe comes
right after a successful `ccontrol start`. -/
theorem main_trace (w : World) (cfg : Config) :
    List.Pairwise (fun a b => a.phase ≤ b.phase) (main w cfg St.init).1.trace ∧
    gated (hardFail w) ((main w cfg St.init).2 = .exit 1) (main w cfg St.init).1.trace ∧
    gated malformed ((main w cfg St.init).2 = .goPanic) (main w cfg St.init).1.trace ∧
    follows none (main w cfg St.init).1.trace := by
  have h := main_post w cfg
  generalize (main w cfg St.init).1.trace = tr at h
  generalize (main w cfg St.init).1.logs = lg at h
  generalize (main w cfg St.init).2 = r at h
  rcases h with ⟨-, rfl, rfl⟩ | ⟨-, sufS, rS, hS, h⟩
  · simp [gated, follows, hardFail, malformed, Event.isProbeUp, Event.isSite]
  · rcases h with ⟨hr, rfl, rfl⟩ | ⟨b, sufX, lgX, rfl, hX, -, h⟩
    · obtain ⟨-, a2, a3, a4, a5, -, -⟩ := Gated_cast (β := Unit) hS.1 hr
      exact ⟨a2, a3, a4, a5⟩
    · have h1 : Gated w 1 5 (sufS ++ sufX ++ [Event.waitSignal]) (.ok () : Res Unit) :=
        Gated_append (Gated_append hS.1 (extra_gated w hX) (by omega) (by omega) (by omega))
          (wait_gated w) (by omega) (by omega) (by omega)
      rcases h with ⟨-, rfl, rfl⟩ | ⟨-, sufD, hD, rfl⟩
      · obtain ⟨-, a2, a3, a4, a5, -, -⟩ := h1
        exact ⟨a2, gated_congr (by simp) a3, gated_congr (by simp) a4, a5⟩
      · have h2 := Gated_append h1 hD.1 (by omega) (by omega) (by omega)
        rw [List.append_assoc, List.singleton_append] at h2
        obtain ⟨-, a2, a3, a4, a5, -, -⟩ := h2
        exact ⟨a2, a3, a4, a5⟩

/-! ## The whole process -/

theorem splitAtSpawn_some {l before after : List Event} {inst : Str}
    (h : splitAtSpawn l = some (before, inst, after)) :
    l = before ++ Event.spawnTail inst :: after := by
  induction l generalizing before with
  | nil => simp [splitAtSpawn] at h
  | cons e rest ih =>
    cases e with
    | spawnTail i =>
      simp only [splitAtSpawn, Option.some.injEq, Prod.mk.injEq] at h
      obtain ⟨rfl, rfl, rfl⟩ := h
      rfl
    | _ =>
      simp only [splitAtSpawn] at h
      cases hr : splitAtSpawn rest with
      | none => simp [hr] at h
      | some p =>
        obtain ⟨b, i, a⟩ := p
        simp only [hr, Option.some.injEq, Prod.mk.injEq] at h
        obtain ⟨rfl, rfl, rfl⟩ := h
        rw [ih hr]
        rfl

/-- The log follower runs exactly one command, its own `ccontrol qlist`, and
when it stops the process it does so by `os.Exit(1)` or by a panic. -/
theorem tail_run (w : World) (t : TailEnv) (inst : Str) :
    ∃ resp, (tailCConsoleLog w t inst St.init).1.trace =
        [Event.exec .folder .output "ccontrol".toList ["qlist".toList, inst] resp] ∧
      ((tailCConsoleLog w t inst St.init).2.stopsProcess = true →
        (tailCConsoleLog w t inst St.init).2 = .exit 1 ∨
        (tailCConsoleLog w t inst St.init).2 = .goPanic) := by
  refine ⟨t.exec "ccontrol".toList ["qlist".toList, inst], ?_⟩
  unfold tailCConsoleLog getInstanceFolder
  generalize "/mgr/cconsole.log".toList = path
  simp only [bind_apply, execCmd, TailEnv.world, St.init]
  generalize t.exec "ccontrol".toList ["qlist".toList, inst] = r
  by_cases h1 : r.err = true
  · simp [h1, bind_apply, logf, osExit]
  · by_cases h2 : r.out = []
    · simp [h1, h2, bind_apply, logf, osExit]
    · cases h3 : (SplitN '^' 4 r.out)[1]? with
      | none => simp [h1, h2, h3, bind_apply, logf, osExit, goPanic, pure]
      | some folder =>
        by_cases h4 : t.tailFileErr (folder ++ path) = true <;>
        simp [h1, h2, h3, h4, bind_apply, logf, osExit, goPanic, pure, printLines,
          Res.stopsProcess]

/-- The main sequence runs no command of the log follower, and it starts the
log follower only when console logging is on. -/
theorem main_events (w : World) (cfg : Config) :
    (∀ e ∈ (main w cfg St.init).1.trace, e.isTail = false) ∧
    SpawnOk cfg.cclog (main w cfg St.init).1.trace := by
  have h := main_post w cfg
  generalize (main w cfg St.init).1.trace = tr at h
  generalize (main w cfg St.init).1.logs = lg at h
  generalize (main w cfg St.init).2 = r at h
  have htail : ∀ e : Event, 1 ≤ e.phase → e.isTail = false := by
    intro e he
    cases e with
    | exec site _ _ _ _ => cases site <;> simp [Event.isTail, Event.phase, Site.phase] at he ⊢
    | _ => simp [Event.isTail]
  have hspawn : ∀ e : Event, 2 < e.phase → e.isSpawnTail = true → cfg.cclog = true := by
    intro e he hs
    cases e <;> simp [Event.isSpawnTail, Event.phase] at he hs
  suffices hall : ∀ e ∈ tr, e.isTail = false ∧ (e.isSpawnTail = true → cfg.cclog = true) from
    ⟨fun e he => (hall e he).1, fun e he => (hall e he).2⟩
  rcases h with ⟨-, rfl, rfl⟩ | ⟨-, sufS, rS, hS, h⟩
  · simp [Event.isTail, Event.isSpawnTail]
  · have hSall : ∀ e ∈ sufS, e.isTail = false ∧ (e.isSpawnTail = true → cfg.cclog = true) :=
      fun e he => ⟨htail e (hS.1.1 e he).1, hS.2.2.2 e he⟩
    rcases h with ⟨hr, rfl, rfl⟩ | ⟨b, sufX, lgX, rfl, hX, -, h⟩
    · exact hSall
    · have hXg := extra_gated w hX
      have key : ∀ sufD : List Event, (∀ e ∈ sufD, 6 ≤ e.phase) →
          ∀ e ∈ sufS ++ sufX ++ Event.waitSignal :: sufD,
            e.isTail = false ∧ (e.isSpawnTail = true → cfg.cclog = true) := by
        intro sufD hD e he
        simp only [List.mem_append, List.mem_cons] at he
        rcases he with (he | he) | rfl | he
        · exact hSall e he
        · have := hXg.1 e he
          exact ⟨htail e (by omega), hspawn e (by omega)⟩
        · simp [Event.isTail, Event.isSpawnTail]
        · have := hD e he
          exact ⟨htail e (by omega), hspawn e (by omega)⟩
      rcases h with ⟨-, rfl, -⟩ | ⟨-, sufD, hD, rfl⟩
      · exact key [] (by simp)
      · exact key sufD fun e he => (hD.1.1 e he).1

theorem filter_insert {l1 l2 : List Event} {fe : Event}
    (h1 : ∀ e ∈ l1, e.isTail = false) (h2 : ∀ e ∈ l2, e.isTail = false)
    (hfe : fe.isTail = true) :
    (l1 ++ fe :: l2).filter (fun e => !e.isTail) = l1 ++ l2 ∧
    (l1 ++ fe :: l2).filter Event.isTail = [fe] := by
  have a1 : l1.filter (fun e => !e.isTail) = l1 :=
    List.filter_eq_self.2 fun e he => by simp [h1 e he]
  have a2 : l2.filter (fun e => !e.isTail) = l2 :=
    List.filter_eq_self.2 fun e he => by simp [h2 e he]
  have b1 : l1.filter Event.isTail = [] :=
    List.filter_eq_nil_iff.2 fun e he => by simp [h1 e he]
  have b2 : l2.filter Event.isTail = [] :=
    List.filter_eq_nil_iff.2 fun e he => by simp [h2 e he]
  constructor
  · rw [List.filter_append, List.filter_cons, a1, a2]
    simp [hfe]
  · rw [List.filter_append, List.filter_cons, b1, b2]
    simp [hfe]

/-- The shape of a run of the process: it is the main sequence, or a prefix of
the main sequence into which the one command of the log follower is inserted
somewhere after the start of the follower. -/
theorem process_shape (w : World) (t : TailEnv) (cfg : Config) :
    ((process w t cfg).timeline = (main w cfg St.init).1.trace ∧
      (process w t cfg).result = (main w cfg St.init).2) ∨
    (∃ l1 l2 l3 fe, (main w cfg St.init).1.trace = l1 ++ l2 ++ l3 ∧
      (process w t cfg).timeline = l1 ++ fe :: l2 ∧ fe.isTail = true ∧
      (∃ s ∈ l1, s.isSpawnTail = true) ∧
      ((process w t cfg).result = (main w cfg St.init).2 ∨
        (process w t cfg).result = .exit 1 ∨ (process w t cfg).result = .goPanic)) := by
  unfold process
  dsimp only
  generalize (main w cfg St.init).1.trace = tr
  generalize (main w cfg St.init).2 = r
  cases hsp : splitAtSpawn tr with
  | none => exact Or.inl ⟨rfl, rfl⟩
  | some p =>
    obtain ⟨before, inst, after⟩ := p
    have htr := splitAtSpawn_some hsp
    obtain ⟨resp, hf1, hf2⟩ := tail_run w t inst
    dsimp only
    split_ifs with h1 h2
    · right
      refine ⟨before ++ Event.spawnTail inst :: after.take (min t.startAfter after.length),
        (after.drop (min t.startAfter after.length)).take t.exitAfter,
        (after.drop (min t.startAfter after.length)).drop t.exitAfter,
        Event.exec .folder .output "ccontrol".toList ["qlist".toList, inst] resp, ?_, ?_, rfl,
        ⟨Event.spawnTail inst, by simp, rfl⟩, Or.inr (hf2 h2.1)⟩
      · rw [htr]
        simp only [List.append_assoc, List.cons_append, List.take_append_drop]
      · rw [hf1]
        simp
    · right
      refine ⟨before ++ Event.spawnTail inst :: after.take (min t.startAfter after.length),
        after.drop (min t.startAfter after.length), [],
        Event.exec .folder .output "ccontrol".toList ["qlist".toList, inst] resp, ?_, ?_, rfl,
        ⟨Event.spawnTail inst, by simp, rfl⟩, Or.inl rfl⟩
      · rw [htr]
        simp only [List.append_assoc, List.cons_append, List.take_append_drop, List.append_nil]
      · rw [hf1]
        simp
    · exact Or.inl ⟨rfl, rfl⟩

/-- What every run of the process has: its events other than the command of
the log follower are a prefix of the main sequence; it ends as the main
sequence does, or in `os.Exit(1)` or a panic; the log follower runs at most
one command, and none when console logging is off, in which case the process
is the main sequence. -/
theorem process_facts (w : World) (t : TailEnv) (cfg : Config) :
    (∃ l3, (main w cfg St.init).1.trace =
      (process w t cfg).timeline.filter (fun e => !e.isTail) ++ l3) ∧
    ((process w t cfg).result = (main w cfg St.init).2 ∨
      (process w t cfg).result = .exit 1 ∨ (process w t cfg).result = .goPanic) ∧
    ((process w t cfg).timeline.filter Event.isTail).length ≤ 1 ∧
    (cfg.cclog = false → (process w t cfg).timeline = (main w cfg St.init).1.trace ∧
      (process w t cfg).result = (main w cfg St.init).2) := by
  obtain ⟨hm1, hm2⟩ := main_events w cfg
  rcases process_shape w t cfg with ⟨h1, h2⟩ | ⟨l1, l2, l3, fe, h1, h2, h3, ⟨s, hs1, hs2⟩, h5⟩
  · rw [h1, h2]
    refine ⟨⟨[], ?_⟩, Or.inl rfl, ?_, fun _ => ⟨rfl, rfl⟩⟩
    · rw [List.append_nil]
      exact (List.filter_eq_self.2 fun e he => by simp [hm1 e he]).symm
    · rw [List.filter_eq_nil_iff.2 fun e he => by simp [hm1 e he]]
      simp
  · rw [h1] at hm1 hm2
    have hl1 : ∀ e ∈ l1, e.isTail = false := fun e he => hm1 e (by simp [he])
    have hl2 : ∀ e ∈ l2, e.isTail = false := fun e he => hm1 e (by simp [he])
    obtain ⟨f1, f2⟩ := filter_insert hl1 hl2 h3
    rw [h2, f1, f2, h1]
    refine ⟨⟨l3, rfl⟩, h5, by simp, fun hc => ?_⟩
    have := hm2 s (by simp [hs1]) hs2
    rw [hc] at this
    cases this

theorem startupFailure_cases {w : World} {e : Event} (h : startupFailure w e) :
    hardFail w e ∨ malformed e := by
  cases e with
  | exec site mode cmd args r =>
    cases site with
    | uname =>
      simp only [startupFailure] at h
      left
      simp only [hardFail]
      refine ⟨by simp, ?_⟩
      tauto
    | sysctl => simp only [startupFailure] at h; left; simp [hardFail, h]
    | cstart => simp only [startupFailure] at h; left; simp [hardFail, h]
    | session => simp only [startupFailure] at h; left; simp [hardFail, h]
    | qlist what =>
      simp only [startupFailure] at h
      obtain ⟨-, h⟩ := h
      by_cases h1 : r.err = true
      · left; simp [hardFail, h1]
      · by_cases h2 : r.out = []
        · left; simp [hardFail, h2]
        · right
          rcases h with h | h
          · exact absurd h h1
          · simp only [malformed]
            exact ⟨⟨what, rfl⟩, by simpa using h1, h2, h⟩
    | folder => simp [startupFailure] at h
    | cstop => simp [startupFailure] at h
    | xstart => simp [startupFailure] at h
    | xstop => simp [startupFailure] at h
  | spawnTail _ => simp [startupFailure] at h
  | spawnExtra _ => simp [startupFailure] at h
  | send _ => simp [startupFailure] at h
  | recv _ => simp [startupFailure] at h
  | waitSignal => simp [startupFailure] at h
  | printVersion => simp [startupFailure] at h

theorem startupFailure_not_tail {w : World} {e : Event} (h : startupFailure w e) :
    e.isTail = false := by
  cases e with
  | exec site mode cmd args r => cases site <;> simp [startupFailure, Event.isTail] at h ⊢
  | _ => simp [Event.isTail]

/-- A failed or malformed step of the main sequence in a run of the process is
the last event of the main sequence: the process ends with a non-zero status,
and only the command of the log follower can come after the step. -/
theorem process_last (w : World) (t : TailEnv) (cfg : Config) (pre post : List Event)
    (e : Event) (htl : (process w t cfg).timeline = pre ++ e :: post)
    (hne : e.isTail = false) (hfail : hardFail w e ∨ malformed e) :
    (main w cfg St.init).1.trace = pre.filter (fun x => !x.isTail) ++ [e] ∧
    ((main w cfg St.init).2 = .exit 1 ∨ (main w cfg St.init).2 = .goPanic) ∧
    (hardFail w e → (main w cfg St.init).2 = .exit 1) ∧
    (∃ c, c ≠ 0 ∧ Res.exitStatus (process w t cfg).result = some c) ∧
    (∀ x ∈ post, x.isTail = true) ∧
    ((pre ++ post).filter Event.isTail).length ≤ 1 ∧
    (cfg.cclog = false → (process w t cfg).result = (main w cfg St.init).2 ∧ post = [] ∧
      ∀ x ∈ pre, x.isTail = false) := by
  obtain ⟨⟨l3, ha⟩, hb, hc, hd⟩ := process_facts w t cfg
  obtain ⟨hm1, -⟩ := main_events w cfg
  obtain ⟨-, h1, h2, -⟩ := main_trace w cfg
  rw [htl] at ha hc hd
  have hfil : (pre ++ e :: post).filter (fun x => !x.isTail) =
      pre.filter (fun x => !x.isTail) ++ e :: post.filter (fun x => !x.isTail) := by
    rw [List.filter_append, List.filter_cons]
    simp [hne]
  have hfil2 : (pre ++ e :: post).filter Event.isTail = (pre ++ post).filter Event.isTail := by
    rw [List.filter_append, List.filter_append, List.filter_cons]
    simp [hne]
  rw [hfil, List.append_assoc, List.cons_append] at ha
  rw [hfil2] at hc
  have hlast : (post.filter (fun x => !x.isTail) ++ l3 = []) ∧
      ((main w cfg St.init).2 = .exit 1 ∨ (main w cfg St.init).2 = .goPanic) ∧
      (hardFail w e → (main w cfg St.init).2 = .exit 1) := by
    rcases hfail with h | h
    · obtain ⟨hp, hr⟩ := gated_split h1 ha h
      exact ⟨hp, Or.inl hr, fun _ => hr⟩
    · obtain ⟨hp, hr⟩ := gated_split h2 ha h
      refine ⟨hp, Or.inr hr, fun h3 => ?_⟩
      exact (gated_split h1 ha h3).2
  obtain ⟨hp, hr, hr1⟩ := hlast
  obtain ⟨hp1, hp2⟩ := List.append_eq_nil.1 hp
  rw [hp] at ha
  have hpost : ∀ x ∈ post, x.isTail = true := by
    intro x hx
    have := List.filter_eq_nil_iff.1 hp1 x hx
    simpa using this
  refine ⟨ha, hr, hr1, ?_, hpost, hc, fun hcc => ?_⟩
  · rcases hb with hb | hb | hb
    · rcases hr with hr | hr
      · exact ⟨1, by simp, by rw [hb, hr]; rfl⟩
      · exact ⟨2, by simp, by rw [hb, hr]; rfl⟩
    · exact ⟨1, by simp, by rw [hb]; rfl⟩
    · exact ⟨2, by simp, by rw [hb]; rfl⟩
  · obtain ⟨hd1, hd2⟩ := hd hcc
    have hall : ∀ x ∈ pre ++ e :: post, x.isTail = false := by
      rw [hd1]
      exact hm1
    refine ⟨hd2, ?_, fun x hx => hall x (by simp [hx])⟩
    cases post with
    | nil => rfl
    | cons x rest =>
      have h3 := hpost x (List.mem_cons_self _ _)
      have h4 := hall x (by simp)
      rw [h3] at h4
      cases h4

/-- C7 (counterexample): with console logging on, a 4.4 kernel and a failing
`ccontrol start`, the log follower, started before `ccontrol start`, can run
its own `ccontrol qlist CACHE` after the failed step: an external command is
invoked after the start-up step that failed. -/
theorem C7_counterexample :
    (process worldStartFails tailLate cfgConsole).timeline =
      [Event.exec .uname .run "uname".toList ["-r".toList] ⟨false, "4.4.0-21-generic".toList⟩,
        Event.spawnTail "CACHE".toList,
        Event.exec .cstart .run "ccontrol".toList
          ["start".toList, "CACHE".toList, "quietly".toList] ⟨true, []⟩,
        Event.exec .folder .output "ccontrol".toList ["qlist".toList, "CACHE".toList]
          ⟨true, []⟩] ∧
    startupFailure worldStartFails (Event.exec .cstart .run "ccontrol".toList
      ["start".toList, "CACHE".toList, "quietly".toList] ⟨true, []⟩) ∧
    (process worldStartFails tailLate cfgConsole).result = .exit 1 :=
  ⟨by decide, rfl, by decide⟩

/-- C7 (amended): for every configuration, every combination of command
results and every scheduling of the log follower, when a start-up command of
the main sequence fails (the `uname` query, `sysctl`, `ccontrol start` or
`ccontrol session` ends with an error, the `uname` answer cannot be parsed, or
the start-up probe `ccontrol qlist` ends with an error or answers fewer than
four fields, the empty answer included), the process terminates with a
non-zero exit status and the main sequence does nothing after the failed
step; the only event that can follow it is the one `ccontrol qlist` of the log
follower, and none follows when console logging is off. -/
theorem C7_startup_failure_terminates (w : World) (t : TailEnv) (cfg : Config)
    (pre post : List Event) (e : Event)
    (htl : (process w t cfg).timeline = pre ++ e :: post)
    (hfail : startupFailure w e) :
    (∃ c, c ≠ 0 ∧ Res.exitStatus (process w t cfg).result = some c) ∧
    (∀ x ∈ post, x.isTail = true) ∧ post.length ≤ 1 ∧
    (cfg.cclog = false → post = []) := by
  obtain ⟨-, -, -, h4, h5, h6, h7⟩ :=
    process_last w t cfg pre post e htl (startupFailure_not_tail hfail)
      (startupFailure_cases hfail)
  refine ⟨h4, h5, ?_, fun hc => (h7 hc).2.1⟩
  rw [List.filter_append] at h6
  have h8 : post.filter Event.isTail = post := List.filter_eq_self.2 h5
  rw [h8, List.length_append] at h6
  omega

theorem C7_startup_failure_terminates_witness :
    (∃ c, c ≠ 0 ∧
      Res.exitStatus (process worldStartFails tailLate cfgConsole).result = some c) ∧
    (∀ x ∈ [Event.exec .folder .output "ccontrol".toList ["qlist".toList, "CACHE".toList]
        ⟨true, []⟩], x.isTail = true) ∧
    [Event.exec .folder .output "ccontrol".toList ["qlist".toList, "CACHE".toList]
      ⟨true, []⟩].length ≤ 1 ∧
    (cfgConsole.cclog = false →
      [Event.exec .folder .output "ccontrol".toList ["qlist".toList, "CACHE".toList]
        ⟨true, []⟩] = []) :=
  C7_startup_failure_terminates worldStartFails tailLate cfgConsole
    [Event.exec .uname .run "uname".toList ["-r".toList] ⟨false, "4.4.0-21-generic".toList⟩,
      Event.spawnTail "CACHE".toList]
    [Event.exec .folder .output "ccontrol".toList ["qlist".toList, "CACHE".toList] ⟨true, []⟩]
    (Event.exec .cstart .run "ccontrol".toList
      ["start".toList, "CACHE".toList, "quietly".toList] ⟨true, []⟩)
    (by decide) rfl

theorem phase_of_isSite_cstop {e : Event} (h : e.isSite .cstop) : e.phase = 6 := by
  cases e <;> simp [Event.isSite] at h
  subst h
  rfl

theorem not_cstop_of_extra {cfg : Config} {sufX : List Event} {lgX : List Log}
    (h : ExtraPost cfg sufX lgX (.ok ())) : ∀ e ∈ sufX, e.phase = 4 := by
  rcases h.2 with ⟨-, rfl⟩ | ⟨-, resp, rfl, -⟩
  · simp
  · simp [Event.phase, Site.phase]

/-- C8 (as stated, refuted): with `cstart=false`, `cstop=true` and an auxiliary
stop command that fails, the run receives the signal, does not invoke the
primary stop, runs the auxiliary stop, and ends with exit status 1, not 0. -/
theorem C8_counterexample :
    cfgNoStart.cstart = false ∧ worldAllFail.signal = true ∧
    (main worldAllFail cfgNoStart St.init).1.trace =
      [Event.waitSignal, Event.exec .xstop .run "stop.sh".toList [] ⟨true, []⟩] ∧
    Res.exitStatus (main worldAllFail cfgNoStart St.init).2 = some 1 := by
  decide

/-- C8 (amended): in every run that receives a termination signal the
primary stop `ccontrol stop` is invoked if and only if both the start flag and
the stop flag are true; with `cstart=false` it is never invoked, and the run
(when it is not the version print and a signal arrives) goes on to the
auxiliary stop when one is configured and ends with exit status 0 if there is
no auxiliary stop or the auxiliary stop succeeds, with status 1 if it fails. -/
theorem C8_primary_stop_iff_start_and_stop (w : World) (cfg : Config) :
    (Event.waitSignal ∈ (main w cfg St.init).1.trace → w.signal = true →
      ((∃ e ∈ (main w cfg St.init).1.trace, e.isSite .cstop) ↔
        (cfg.cstart = true ∧ cfg.cstop = true))) ∧
    (cfg.cstart = false → ∀ e ∈ (main w cfg St.init).1.trace, ¬ e.isSite .cstop) ∧
    (cfg.cstart = false → cfg.ver = false → w.signal = true →
      (cfg.exeStop = [] → Res.exitStatus (main w cfg St.init).2 = some 0) ∧
      (cfg.exeStop ≠ [] → ∃ pre resp,
        (main w cfg St.init).1.trace = pre ++ [Event.exec .xstop .run cfg.exeStop [] resp] ∧
        Res.exitStatus (main w cfg St.init).2 = some (if resp.err = true then 1 else 0))) := by
  have h := main_post w cfg
  generalize (main w cfg St.init).1.trace = tr at h
  generalize (main w cfg St.init).1.logs = lg at h
  generalize (main w cfg St.init).2 = r at h
  rcases h with ⟨hv, rfl, rfl⟩ | ⟨hv, sufS, rS, hS, h⟩
  · refine ⟨fun h => by simp at h, fun _ e he => ?_, fun _ h => by simp [hv] at h⟩
    simp only [List.mem_singleton] at he
    subst he
    simp [Event.isSite]
  · have hSph : ∀ e ∈ sufS, ¬ e.isSite .cstop := fun e he hs => by
      have := (hS.1.1 e he).2
      rw [phase_of_isSite_cstop hs] at this
      omega
    rcases h with ⟨hr, rfl, rfl⟩ | ⟨b, sufX, lgX, rfl, hX, -, h⟩
    · refine ⟨fun hw => ?_, fun _ => hSph, fun hc => ?_⟩
      · have := (hS.1.1 _ hw).2
        simp [Event.phase] at this
      · exact absurd (hS.2.1 hc).2 (hr _)
    · have hb : b = (cfg.cstart && cfg.cstop) := by
        rcases hS.2.2.1 with h | h | h <;> simp at h
        exact h
      have hXph : ∀ e ∈ sufX, ¬ e.isSite .cstop := fun e he hs => by
        have := not_cstop_of_extra hX e he
        rw [phase_of_isSite_cstop hs] at this
        omega
      rcases h with ⟨hsig, rfl, rfl⟩ | ⟨hsig, sufD, hD, rfl⟩
      · refine ⟨fun _ h => by simp [hsig] at h, fun _ e he => ?_, fun _ _ h => by simp [hsig] at h⟩
        simp only [List.mem_append, List.mem_singleton] at he
        rcases he with (he | he) | rfl
        · exact hSph e he
        · exact hXph e he
        · simp [Event.isSite]
      · have hiff : (∃ e ∈ sufS ++ sufX ++ Event.waitSignal :: sufD, e.isSite .cstop) ↔
            b = true := by
          rw [← hD.2.1]
          constructor
          · rintro ⟨e, he, hs⟩
            simp only [List.mem_append, List.mem_cons] at he
            rcases he with (he | he) | rfl | he
            · exact absurd hs (hSph e he)
            · exact absurd hs (hXph e he)
            · simp [Event.isSite] at hs
            · exact ⟨e, he, hs⟩
          · rintro ⟨e, he, hs⟩
            exact ⟨e, by simp [he], hs⟩
        refine ⟨fun _ _ => ?_, fun hc e he hs => ?_, fun hc _ _ => ?_⟩
        · rw [hiff, hb]
          simp
        · have : b = true := hiff.1 ⟨e, he, hs⟩
          simp [hb, hc] at this
        · have hbf : b = false := by simp [hb, hc]
          rcases hD.2.2.1 hbf with ⟨hx, rfl, rfl⟩ | ⟨hx, resp, rfl, rfl⟩
          · exact ⟨fun _ => rfl, fun h => absurd hx h⟩
          · refine ⟨fun h => absurd h hx, fun _ => ⟨sufS ++ sufX ++ [Event.waitSignal], resp, by simp, ?_⟩⟩
            by_cases he : resp.err = true <;> simp [he, Res.exitStatus]

theorem C8_primary_stop_iff_start_and_stop_witness :
    Res.exitStatus (main worldAllFail cfgIdle St.init).2 = some 0 :=
  ((C8_primary_stop_iff_start_and_stop worldAllFail cfgIdle).2.2 rfl rfl rfl).1 rfl

theorem split_unique {P : Event → Prop} {l1 l2 pre post : List Event} {a e : Event}
    (h : l1 ++ a :: l2 = pre ++ e :: post) (he : P e)
    (h1 : ∀ x ∈ l1, ¬ P x) (h2 : ∀ x ∈ l2, ¬ P x) : pre = l1 ∧ e = a ∧ post = l2 := by
  induction l1 generalizing pre with
  | nil =>
    cases pre with
    | nil =>
      simp only [List.nil_append, List.cons.injEq] at h
      exact ⟨rfl, h.1.symm, h.2.symm⟩
    | cons x pre =>
      simp only [List.nil_append, List.cons_append, List.cons.injEq] at h
      have : e ∈ l2 := by rw [h.2]; simp
      exact absurd he (h2 e this)
  | cons y l1 ih =>
    cases pre with
    | nil =>
      simp only [List.nil_append, List.cons_append, List.cons.injEq] at h
      have := h1 y (List.mem_cons_self _ _)
      rw [h.1] at this
      exact absurd he this
    | cons x pre =>
      simp only [List.cons_append, List.cons.injEq] at h
      obtain ⟨h3, h4, h5⟩ := ih h.2 (fun x hx => h1 x (List.mem_cons_of_mem _ hx))
      exact ⟨by rw [h.1, h3], h4, h5⟩

/-- C9: `startExtraService` puts exactly one value on its channel, `false`
when the launch fails and `true` when it succeeds, and returns; in every run
of `main` the value received from the channel is that single outcome of the
one launch, at most one value is ever sent, the next interaction after the
receive is the signal wait, and a failed launch is logged. -/
theorem C9_extra_outcome_exactly_once (w : World) (cfg : Config) :
    (∀ (exeCmd : Str) (s : St),
      startExtraService w exeCmd s =
        (⟨s.trace ++ [Event.exec .xstart .start exeCmd [] (w.exec s.trace.length exeCmd []),
            Event.send (!(w.exec s.trace.length exeCmd []).err)],
          s.logs ++ (Log.startingExtra ::
            if (w.exec s.trace.length exeCmd []).err = true then [Log.extraStartError] else []),
          s.chan ++ [!(w.exec s.trace.length exeCmd []).err]⟩, .ok ())) ∧
    ((main w cfg St.init).1.trace.countP Event.isSend ≤ 1) ∧
    (∀ (pre post : List Event) (b : Bool),
      (main w cfg St.init).1.trace = pre ++ Event.recv b :: post →
      (∃ pre1 resp, pre = pre1 ++ [Event.spawnExtra cfg.exeStart,
          Event.exec .xstart .start cfg.exeStart [] resp, Event.send b] ∧ b = !resp.err) ∧
      (∃ post1, post = Event.waitSignal :: post1) ∧
      (b = false → Log.extraError ∈ (main w cfg St.init).1.logs)) := by
  refine ⟨fun exeCmd s => ?_, ?_⟩
  · obtain ⟨tr, lg, ch⟩ := s
    by_cases he : (w.exec tr.length exeCmd []).err = true <;>
    simp [startExtraService, bind_apply, logf, execCmd, emit, he]
  · have h := main_post w cfg
    generalize (main w cfg St.init).1.trace = tr at h
    generalize (main w cfg St.init).1.logs = lg at h
    generalize (main w cfg St.init).2 = r at h
    have hcount : ∀ l : List Event, (∀ e ∈ l, e.phase ≠ 4) → l.countP Event.isSend = 0 := by
      intro l hl
      rw [List.countP_eq_zero]
      intro e he hs
      cases e <;> simp [Event.isSend] at hs
      exact hl _ he rfl
    have hrecv : ∀ l : List Event, (∀ e ∈ l, e.phase ≠ 4) → ∀ e ∈ l, ¬ e.isRecv := by
      intro l hl e he hs
      cases e <;> simp [Event.isRecv] at hs
      exact hl _ he rfl
    rcases h with ⟨hv, rfl, rfl⟩ | ⟨hv, sufS, rS, hS, h⟩
    · refine ⟨by simp [List.countP_cons, Event.isSend], fun pre post b h => ?_⟩
      have : Event.recv b ∈ [Event.printVersion] := by rw [h]; simp
      simp at this
    · have hSph : ∀ e ∈ sufS, e.phase ≠ 4 := fun e he => by
        have := (hS.1.1 e he).2
        omega
      rcases h with ⟨hr, rfl, rfl⟩ | ⟨b0, sufX, lgX, rfl, hX, hlg, h⟩
      · refine ⟨by rw [hcount _ hSph]; omega, fun pre post b h => ?_⟩
        have hm : Event.recv b ∈ pre ++ Event.recv b :: post := by simp
        rw [← h] at hm
        exact absurd trivial (hrecv _ hSph _ hm)
      · obtain ⟨rest, hrest, htr⟩ : ∃ rest, (∀ e ∈ rest, e.phase ≠ 4) ∧
            tr = sufS ++ sufX ++ Event.waitSignal :: rest := by
          rcases h with ⟨-, rfl, -⟩ | ⟨-, sufD, hD, rfl⟩
          · exact ⟨[], by simp, rfl⟩
          · refine ⟨sufD, fun e he => ?_, rfl⟩
            have := (hD.1.1 e he).1
            omega
        subst htr
        have hW : ∀ e ∈ Event.waitSignal :: rest, e.phase ≠ 4 := by
          intro e he
          rcases List.mem_cons.1 he with rfl | he
          · simp [Event.phase]
          · exact hrest e he
        rcases hX.2 with ⟨-, rfl⟩ | ⟨-, resp, rfl, hl1, hl2⟩
        · refine ⟨?_, fun pre post b h => ?_⟩
          · rw [List.append_nil, List.countP_append, hcount _ hSph, hcount _ hW]
            omega
          · have : Event.recv b ∈ sufS ++ [] ++ Event.waitSignal :: rest := by rw [h]; simp
            rw [List.append_nil] at this
            rcases List.mem_append.1 this with h1 | h1
            · exact absurd trivial (hrecv _ hSph _ h1)
            · exact absurd trivial (hrecv _ hW _ h1)
        · refine ⟨?_, fun pre post b h => ?_⟩
          · rw [List.countP_append, List.countP_append, hcount _ hSph, hcount _ hW]
            simp [List.countP_cons, Event.isSend]
          · have h3 : (sufS ++ [Event.spawnExtra cfg.exeStart,
                Event.exec .xstart .start cfg.exeStart [] resp, Event.send (!resp.err)]) ++
                Event.recv (!resp.err) :: (Event.waitSignal :: rest) =
                pre ++ Event.recv b :: post := by
              rw [← h]; simp
            obtain ⟨h4, h5, h6⟩ := split_unique (P := Event.isRecv) h3 trivial (by
              intro x hx
              rcases List.mem_append.1 hx with hx | hx
              · exact hrecv _ hSph _ hx
              · simp only [List.mem_cons, List.mem_singleton, List.not_mem_nil, or_false] at hx
                rcases hx with rfl | rfl | rfl <;> simp [Event.isRecv]) (hrecv _ hW)
            cases h5
            refine ⟨⟨sufS, resp, h4, rfl⟩, ⟨rest, h6⟩, fun hb => ?_⟩
            have : resp.err = true := by simpa using hb
            exact hlg _ (hl1 this)

theorem C9_extra_outcome_exactly_once_witness :
    (∃ pre1 resp, [Event.spawnExtra "start.sh".toList,
        Event.exec .xstart .start "start.sh".toList [] ⟨true, []⟩, Event.send false] =
        pre1 ++ [Event.spawnExtra cfgExtra.exeStart,
          Event.exec .xstart .start cfgExtra.exeStart [] resp, Event.send false] ∧
        false = !resp.err) ∧
      (∃ post1, [Event.waitSignal] = Event.waitSignal :: post1) ∧
      (false = false → Log.extraError ∈ (main worldAllFail cfgExtra St.init).1.logs) :=
  (C9_extra_outcome_exactly_once worldAllFail cfgExtra).2.2 _ _ false (by decide)

theorem filter_split {p : Event → Bool} {l l1 : List Event} {c : Event}
    (h : l.filter p = l1 ++ [c]) :
    ∃ pre mid, l = pre ++ c :: mid ∧ ∀ x ∈ mid, p x = false := by
  induction l generalizing l1 with
  | nil => simp at h
  | cons a l ih =>
    by_cases ha : p a = true
    · rw [List.filter_cons_of_pos ha] at h
      cases l1 with
      | nil =>
        simp only [List.nil_append, List.cons.injEq] at h
        obtain ⟨rfl, h⟩ := h
        refine ⟨[], l, rfl, fun x hx => ?_⟩
        have := List.filter_eq_nil_iff.1 h x hx
        simpa using this
      | cons b l2 =>
        simp only [List.cons_append, List.cons.injEq] at h
        obtain ⟨pre, mid, rfl, hmid⟩ := ih h.2
        exact ⟨a :: pre, mid, rfl, hmid⟩
    · rw [List.filter_cons_of_neg ha] at h
      obtain ⟨pre, mid, rfl, hmid⟩ := ih h
      exact ⟨a :: pre, mid, rfl, hmid⟩

/-- C10 (counterexample): with the default flags (start-up enabled) on a 4.4
kernel and `ccontrol qlist` answering the empty string, the process ends with
exit status 1, but `ccontrol start CACHE quietly` has been invoked before the
probe and so before that exit; with console logging on, the log follower runs
its own `ccontrol qlist` between the two. -/
theorem C10_counterexample :
    Config.default.cstart = true ∧
    (process worldQuiet tailEmpty Config.default).timeline =
      [Event.exec .uname .run "uname".toList ["-r".toList] ⟨false, "4.4.0-21-generic".toList⟩,
        Event.exec .cstart .run "ccontrol".toList
          ["start".toList, "CACHE".toList, "quietly".toList] ⟨false, []⟩,
        Event.exec (.qlist "up".toList) .output "ccontrol".toList
          ["qlist".toList, "CACHE".toList] ⟨false, []⟩] ∧
    (process worldQuiet tailEmpty Config.default).result = .exit 1 ∧
    (process worldQuiet tailEmpty cfgConsole).timeline =
      [Event.exec .uname .run "uname".toList ["-r".toList] ⟨false, "4.4.0-21-generic".toList⟩,
        Event.spawnTail "CACHE".toList,
        Event.exec .cstart .run "ccontrol".toList
          ["start".toList, "CACHE".toList, "quietly".toList] ⟨false, []⟩,
        Event.exec .folder .output "ccontrol".toList
          ["qlist".toList, "CACHE".toList] ⟨false, []⟩,
        Event.exec (.qlist "up".toList) .output "ccontrol".toList
          ["qlist".toList, "CACHE".toList] ⟨false, []⟩] ∧
    (process worldQuiet tailEmpty cfgConsole).result = .exit 1 := by
  decide

/-- C10 (amended): in every run of the process, whatever the scheduling of the
log follower, when a `ccontrol qlist` probe of the main sequence answers the
empty string the process ends with a non-zero exit status (status 1 when
console logging is off) and the main sequence does nothing after the probe:
only the one `ccontrol qlist` of the log follower can come after it, and the
run has at most one such event, none when console logging is off. When the
probe is the start-up probe, `ccontrol start` has been invoked and has
succeeded before it, with nothing but the command of the log follower between
the two, and no `ccontrol stop` occurs in the run. -/
theorem C10_empty_probe_is_fatal (w : World) (t : TailEnv) (cfg : Config)
    (pre post : List Event) (what : Str) (mode : Mode) (cmd : Str) (args : List Str) (rq : Resp)
    (htl : (process w t cfg).timeline =
      pre ++ Event.exec (.qlist what) mode cmd args rq :: post)
    (hout : rq.out = []) :
    (∃ c, c ≠ 0 ∧ Res.exitStatus (process w t cfg).result = some c) ∧
    (∀ x ∈ post, x.isTail = true) ∧
    ((pre ++ post).filter Event.isTail).length ≤ 1 ∧
    (cfg.cclog = false →
      (process w t cfg).result = .exit 1 ∧ post = [] ∧ ∀ x ∈ pre, x.isTail = false) ∧
    (what = "up".toList →
      (∃ pre1 m c a rc mid, pre = pre1 ++ Event.exec .cstart m c a rc :: mid ∧
        rc.err = false ∧ ∀ x ∈ mid, x.isTail = true) ∧
      ∀ x ∈ pre ++ post, ¬ x.isSite .cstop) := by
  have hf : hardFail w (Event.exec (.qlist what) mode cmd args rq) := by
    simp [hardFail, hout]
  obtain ⟨h1, -, h3, h4, h5, h6, h7⟩ :=
    process_last w t cfg pre post _ htl rfl (Or.inl hf)
  obtain ⟨h0, -, -, hfol⟩ := main_trace w cfg
  refine ⟨h4, h5, h6, fun hc => ?_, fun hw => ⟨?_, fun x hx hs => ?_⟩⟩
  · obtain ⟨a1, a2, a3⟩ := h7 hc
    exact ⟨by rw [a1, h3 hf], a2, a3⟩
  · subst hw
    obtain ⟨c, hc, hpre⟩ := follows_split hfol h1 (by simp [Event.isProbeUp, Event.isSite])
    rcases hpre with ⟨-, h⟩ | ⟨pre1, hpre⟩
    · cases h
    · obtain ⟨p1, mid, rfl, hmid⟩ := filter_split hpre
      cases c <;> simp [Event.isStartOk] at hc
      obtain ⟨rfl, hc⟩ := hc
      exact ⟨p1, _, _, _, _, mid, rfl, hc, fun x hx => by simpa using hmid x hx⟩
  · subst hw
    have hnt : x.isTail = false := by
      cases x with
      | exec site _ _ _ _ => cases site <;> simp [Event.isSite, Event.isTail] at hs ⊢
      | _ => simp [Event.isTail]
    rcases List.mem_append.1 hx with hx | hx
    · have hmem : x ∈ pre.filter (fun x => !x.isTail) := by
        simp [List.mem_filter, hx, hnt]
      rw [h1, List.pairwise_append] at h0
      have := h0.2.2 x hmem _ (List.mem_singleton_self _)
      rw [phase_of_isSite_cstop hs] at this
      simp [Event.phase, Site.phase] at this
    · rw [h5 x hx] at hnt
      cases hnt

theorem C10_empty_probe_is_fatal_witness :
    (∃ c, c ≠ 0 ∧ Res.exitStatus (process worldQuiet tailEmpty cfgConsole).result = some c) ∧
    (∀ x ∈ ([] : List Event), x.isTail = true) ∧
    (([Event.exec .uname .run "uname".toList ["-r".toList]
          ⟨false, "4.4.0-21-generic".toList⟩,
        Event.spawnTail "CACHE".toList,
        Event.exec .cstart .run "ccontrol".toList
          ["start".toList, "CACHE".toList, "quietly".toList] ⟨false, []⟩,
        Event.exec .folder .output "ccontrol".toList
          ["qlist".toList, "CACHE".toList] ⟨false, []⟩] ++ []).filter Event.isTail).length ≤ 1 ∧
    (cfgConsole.cclog = false →
      (process worldQuiet tailEmpty cfgConsole).result = .exit 1 ∧ ([] : List Event) = [] ∧
      ∀ x ∈ [Event.exec .uname .run "uname".toList ["-r".toList]
            ⟨false, "4.4.0-21-generic".toList⟩,
          Event.spawnTail "CACHE".toList,
          Event.exec .cstart .run "ccontrol".toList
            ["start".toList, "CACHE".toList, "quietly".toList] ⟨false, []⟩,
          Event.exec .folder .output "ccontrol".toList
            ["qlist".toList, "CACHE".toList] ⟨false, []⟩], x.isTail = false) ∧
    ("up".toList = "up".toList →
      (∃ pre1 m c a rc mid,
        [Event.exec .uname .run "uname".toList ["-r".toList] ⟨false, "4.4.0-21-generic".toList⟩,
          Event.spawnTail "CACHE".toList,
          Event.exec .cstart .run "ccontrol".toList
            ["start".toList, "CACHE".toList, "quietly".toList] ⟨false, []⟩,
          Event.exec .folder .output "ccontrol".toList
            ["qlist".toList, "CACHE".toList] ⟨false, []⟩] =
          pre1 ++ Event.exec .cstart m c a rc :: mid ∧
        rc.err = false ∧ ∀ x ∈ mid, x.isTail = true) ∧
      ∀ x ∈ [Event.exec .uname .run "uname".toList ["-r".toList]
            ⟨false, "4.4.0-21-generic".toList⟩,
          Event.spawnTail "CACHE".toList,
          Event.exec .cstart .run "ccontrol".toList
            ["start".toList, "CACHE".toList, "quietly".toList] ⟨false, []⟩,
          Event.exec .folder .output "ccontrol".toList
            ["qlist".toList, "CACHE".toList] ⟨false, []⟩] ++ [],
        ¬ x.isSite .cstop) :=
  C10_empty_probe_is_fatal worldQuiet tailEmpty cfgConsole _ [] "up".toList .output
    "ccontrol".toList ["qlist".toList, "CACHE".toList] ⟨false, []⟩ (by decide) rfl

theorem wrapInt64_mul (v : Int) : wrapInt64 (wrapInt64 (v * 1024) * 1024) = wrapInt64 (v * 1024 * 1024) := by
  unfold wrapInt64
  omega

theorem wrapInt64_id (x : Int) (h1 : -2 ^ 63 ≤ x) (h2 : x < 2 ^ 63) : wrapInt64 x = x := by
  unfold wrapInt64
  omega

/-- C5: for every tuning target `t`, the argument given to `sysctl -w` is
`kernel.shmmax=` followed by the decimal rendering of the byte value, which is
`min(t, 8192) * 1024 * 1024` in 64-bit Go arithmetic; the value is the exact
product (no overflow) for every `t ≥ -2^43`, in particular for `0 ≤ t`, where
it lies in `[0, 2^63)`; a target above 8192 gives the bytes of 8192 MB;
`t = 10000` gives 8589934592 and `t = 512` gives 536870912. -/
theorem C5_shmmax_bytes (w : World) (s : St) (t : Int) :
    (setSharedMemSeg w t s).1.trace = s.trace ++
      [Event.exec .sysctl .run "sysctl".toList
        ["-w".toList, "kernel.shmmax=".toList ++ Itoa (shmmaxByteVal t)]
        (w.exec s.trace.length "sysctl".toList
          ["-w".toList, "kernel.shmmax=".toList ++ Itoa (shmmaxByteVal t)])] ∧
    shmmaxByteVal t = wrapInt64 (min t 8192 * 1024 * 1024) ∧
    (-2 ^ 43 ≤ t → shmmaxByteVal t = min t 8192 * 1024 * 1024) ∧
    (8192 < t → shmmaxByteVal t = 8192 * 1024 * 1024) ∧
    (0 ≤ t → 0 ≤ shmmaxByteVal t ∧ shmmaxByteVal t < 2 ^ 63) ∧
    shmmaxByteVal 10000 = 8589934592 ∧ shmmaxByteVal 512 = 536870912 ∧
    kernelParamShmmax 10000 = "kernel.shmmax=8589934592".toList ∧
    kernelParamShmmax 512 = "kernel.shmmax=536870912".toList := by
  have hmin : (if t > pre316MaxShmall then pre316MaxShmall else t) = min t 8192 := by
    unfold pre316MaxShmall
    split <;> omega
  have hval : shmmaxByteVal t = wrapInt64 (min t 8192 * 1024 * 1024) := by
    unfold shmmaxByteVal
    simp only [hmin]
    exact wrapInt64_mul _
  have hexact : -2 ^ 43 ≤ t → shmmaxByteVal t = min t 8192 * 1024 * 1024 := by
    intro h
    rw [hval]
    apply wrapInt64_id <;> omega
  refine ⟨?_, hval, hexact, ?_, ?_, by decide, by decide, by decide, by decide⟩
  · obtain ⟨tr, lg, ch⟩ := s
    have hk : kernelParamShmmax t = "kernel.shmmax=".toList ++ Itoa (shmmaxByteVal t) := by
      simp [kernelParamShmmax, Join]
    unfold setSharedMemSeg
    rw [hk]
    generalize "sysctl".toList = cmd
    generalize ["-w".toList, "kernel.shmmax=".toList ++ Itoa (shmmaxByteVal t)] = args
    by_cases h1 : t > pre316MaxShmall <;>
    by_cases h2 : (w.exec tr.length cmd args).err = true <;>
    simp [bind_apply, logf, execCmd, osExit, pure, h1, h2]
  · intro h
    rw [hexact (by omega)]
    omega
  · intro h
    rw [hexact (by omega)]
    omega

theorem C5_shmmax_bytes_witness :
    shmmaxByteVal 9000 = 8192 * 1024 * 1024 :=
  (C5_shmmax_bytes worldQuiet St.init 9000).2.2.2.1 (by decide)

/-- C1 (the code at the failing inputs): `checkCmdOutcome("up", _)` returns a
nil error when the instance is reported `down`, so `startCaché` returns
success for a `down` and for a `sign-on inhibited` instance, `shutdownCaché`
returns success for an instance still `running`, and `main` goes on to wait
for the signal after a start that left the instance `down`. -/
theorem C1_outcome_check_never_fails :
    (checkCmdOutcome (worldWith "4.4.0-21-generic".toList recordDown) "up".toList
      "CACHE".toList St.init).2 = .ok none ∧
    (startCache (worldWith "4.4.0-21-generic".toList recordDown) "CACHE".toList false false
      St.init).2 = .ok (true, none) ∧
    (startCache (worldWith "4.4.0-21-generic".toList recordInhibited) "CACHE".toList false false
      St.init).2 = .ok (true, none) ∧
    (shutdownCache (worldWith "4.4.0-21-generic".toList recordRunning) "CACHE".toList
      St.init).2 = .ok (true, none) ∧
    Event.waitSignal ∈
      (main (worldWith "4.4.0-21-generic".toList recordDown) Config.default St.init).1.trace := by
  decide

/-- C4 (the code at the failing inputs): on the non-empty record
`C151^/usr/cachesys` of two fields `upDownStr[3]` is out of range and
`checkCmdOutcome` ends in a run-time panic, not in the fatal exit; on the
record `C151` of one field `SplitN(...)[1]` is out of range and
`getInstanceFolder` panics too; `main` then dies with the panic status 2. -/
theorem C4_malformed_record_panics :
    (SplitN '^' 4 "C151^/usr/cachesys".toList)[3]? = none ∧
    (checkCmdOutcome (worldWith [] "C151^/usr/cachesys".toList) "up".toList "CACHE".toList
      St.init).2 = .goPanic ∧
    (SplitN '^' 4 "C151".toList)[1]? = none ∧
    (getInstanceFolder (worldWith [] "C151".toList) "CACHE".toList St.init).2 = .goPanic ∧
    (main (worldWith "4.4.0-21-generic".toList "C151^/usr/cachesys".toList) Config.default
      St.init).2 = .goPanic := by
  decide

/-- C2 (the code at the failing input): on the kernel `3.8.0-19-generic`,
which is lower than 3.16 in kernel-version order (3 = 3 and 8 < 16),
`getKernelVersion` returns the float 3.8, which is not below the float 3.16,
and `checkKernelAndShmem` runs `uname` only: `setSharedMemSeg` is not called.
The kernels 3.10, 3.16 and 4.4 behave as the claim says. -/
theorem C2_kernel_3_8_is_not_tuned :
    (getKernelVersion (worldWith "3.8.0-19-generic".toList []) St.init).2 =
      .ok (⟨false, 8556839292003942, -51⟩, none) ∧
    Float64.lt ⟨false, 8556839292003942, -51⟩ k316 = false ∧
    checkKernelAndShmem (worldWith "3.8.0-19-generic".toList []) 512 St.init =
      (⟨[Event.exec .uname .run "uname".toList ["-r".toList]
          ⟨false, "3.8.0-19-generic".toList⟩], [], []⟩, .ok none) ∧
    (checkKernelAndShmem (worldWith "3.10.0-123.el7.x86_64".toList []) 512 St.init).1.trace =
      [Event.exec .uname .run "uname".toList ["-r".toList]
          ⟨false, "3.10.0-123.el7.x86_64".toList⟩,
        Event.exec .sysctl .run "sysctl".toList
          ["-w".toList, "kernel.shmmax=536870912".toList] ⟨false, []⟩] ∧
    (checkKernelAndShmem (worldWith "3.16.0-34-generic".toList []) 512 St.init).1.trace =
      [Event.exec .uname .run "uname".toList ["-r".toList] ⟨false, "3.16.0-34-generic".toList⟩] ∧
    (checkKernelAndShmem (worldWith "4.4.0-21-generic".toList []) 512 St.init).1.trace =
      [Event.exec .uname .run "uname".toList ["-r".toList] ⟨false, "4.4.0-21-generic".toList⟩] := by
  decide

theorem SplitN_no_sep (sep : Char) (n : Nat) (a : Str) (ha : sep ∉ a) :
    SplitN sep (n + 1) a = [a] := by
  induction a generalizing n with
  | nil => cases n <;> simp [SplitN]
  | cons c cs ih =>
    cases n with
    | zero => simp [SplitN]
    | succ m =>
      have hc : c ≠ sep := fun h => ha (by simp [h])
      have hcs : sep ∉ cs := fun h => ha (by simp [h])
      simp only [SplitN, hc, if_false, ih (m + 1) hcs]

theorem SplitN_append_sep (sep : Char) (n : Nat) (a x : Str) (ha : sep ∉ a) :
    SplitN sep (n + 2) (a ++ sep :: x) = a :: SplitN sep (n + 1) x := by
  induction a with
  | nil => simp [SplitN]
  | cons c cs ih =>
    have hc : c ≠ sep := fun h => ha (by simp [h])
    have hcs : sep ∉ cs := fun h => ha (by simp [h])
    simp only [List.cons_append, SplitN, hc, if_false, List.append_eq, ih hcs]

theorem SplitN_record (a b c rem : Str) (ha : '^' ∉ a) (hb : '^' ∉ b) (hc : '^' ∉ c) :
    SplitN '^' 4 (a ++ '^' :: (b ++ '^' :: (c ++ '^' :: rem))) = [a, b, c, rem] := by
  rw [SplitN_append_sep '^' 2 a _ ha, SplitN_append_sep '^' 1 b _ hb,
    SplitN_append_sep '^' 0 c _ hc]
  simp [SplitN]

theorem SplitN_status (st tail : Str) (hst : ',' ∉ st)
    (htail : tail = [] ∨ ∃ t, tail = ',' :: t) : (SplitN ',' 2 (st ++ tail))[0]? = some st := by
  rcases htail with rfl | ⟨t, rfl⟩
  · rw [List.append_nil, SplitN_no_sep ',' 1 st hst]
    rfl
  · rw [SplitN_append_sep ',' 0 st t hst]
    simp

theorem checkCmdOutcome_eq (w : World) (what inst : Str) (s : St) (a b c st tail : Str)
    (ha : '^' ∉ a) (hb : '^' ∉ b) (hc : '^' ∉ c) (hst : ',' ∉ st)
    (htail : tail = [] ∨ ∃ t, tail = ',' :: t)
    (herr : (w.exec s.trace.length "ccontrol".toList ["qlist".toList, inst]).err = false)
    (hout : (w.exec s.trace.length "ccontrol".toList ["qlist".toList, inst]).out =
      a ++ '^' :: (b ++ '^' :: (c ++ '^' :: (st ++ tail)))) :
    checkCmdOutcome w what inst s =
      (⟨s.trace ++ [Event.exec (.qlist what) .output "ccontrol".toList ["qlist".toList, inst]
          (w.exec s.trace.length "ccontrol".toList ["qlist".toList, inst])],
        s.logs ++ [if st = "running".toList then Log.startedOk
          else if st = "down".toList then Log.stoppedOk
          else if st = "sign-on inhibited".toList then Log.signOnInhibited
          else Log.unrecognized what (a ++ '^' :: (b ++ '^' :: (c ++ '^' :: (st ++ tail))))],
        s.chan⟩, .ok none) := by
  obtain ⟨tr, lg, ch⟩ := s
  simp only at herr hout
  have h3 : (SplitN '^' 4 (a ++ '^' :: (b ++ '^' :: (c ++ '^' :: (st ++ tail)))))[3]? =
      some (st ++ tail) := by
    rw [SplitN_record a b c _ ha hb hc]
    rfl
  have h0 := SplitN_status st tail hst htail
  have hne : a ++ '^' :: (b ++ '^' :: (c ++ '^' :: (st ++ tail))) ≠ [] := by simp
  unfold checkCmdOutcome
  generalize "ccontrol".toList = cmd at herr hout ⊢
  generalize ["qlist".toList, inst] = args at herr hout ⊢
  generalize "running".toList = sR
  generalize "down".toList = sD
  generalize "sign-on inhibited".toList = sI
  simp only [bind_apply, execCmd, herr, hout, hne, h3, h0, Bool.false_eq_true, if_false, pure]
  split_ifs <;> simp [logf, bind_apply]

/-- C3 (as stated, refuted): the fourth caret-delimited field of
`recordRunningLate` begins with `running`, and that of `recordNoComma` is
exactly `running`, yet `checkCmdOutcome` takes the Un-recognized branch for
both. -/
theorem C3_counterexample :
    ((Split '^' recordRunningLate)[3]?.map fun f => f.take 7) = some "running".toList ∧
    (checkCmdOutcome (worldWith [] recordRunningLate) "up".toList "CACHE".toList St.init).1.logs =
      [Log.unrecognized "up".toList recordRunningLate] ∧
    (Split '^' recordNoComma)[3]? = some "running".toList ∧
    (checkCmdOutcome (worldWith [] recordNoComma) "up".toList "CACHE".toList St.init).1.logs =
      [Log.unrecognized "up".toList recordNoComma] := by
  decide

/-- C3 (amended): for every record with at least four caret-delimited fields
the branch taken by `checkCmdOutcome` is decided by the text `st` that stands
between the third caret and the first comma after it (or the end of the
record): exactly `running` is the started-successfully branch, exactly `down`
the stopped branch, exactly `sign-on inhibited` the sign-on-inhibited branch,
and every other text the Un-recognized branch. -/
theorem C3_status_is_exact_match (w : World) (what inst : Str) (s : St) (a b c st tail : Str)
    (ha : '^' ∉ a) (hb : '^' ∉ b) (hc : '^' ∉ c) (hst : ',' ∉ st)
    (htail : tail = [] ∨ ∃ t, tail = ',' :: t)
    (herr : (w.exec s.trace.length "ccontrol".toList ["qlist".toList, inst]).err = false)
    (hout : (w.exec s.trace.length "ccontrol".toList ["qlist".toList, inst]).out =
      a ++ '^' :: (b ++ '^' :: (c ++ '^' :: (st ++ tail)))) :
    (st = "running".toList →
      (checkCmdOutcome w what inst s).1.logs = s.logs ++ [Log.startedOk]) ∧
    (st = "down".toList →
      (checkCmdOutcome w what inst s).1.logs = s.logs ++ [Log.stoppedOk]) ∧
    (st = "sign-on inhibited".toList →
      (checkCmdOutcome w what inst s).1.logs = s.logs ++ [Log.signOnInhibited]) ∧
    (st ≠ "running".toList → st ≠ "down".toList → st ≠ "sign-on inhibited".toList →
      (checkCmdOutcome w what inst s).1.logs = s.logs ++
        [Log.unrecognized what (a ++ '^' :: (b ++ '^' :: (c ++ '^' :: (st ++ tail))))]) := by
  rw [checkCmdOutcome_eq w what inst s a b c st tail ha hb hc hst htail herr hout]
  refine ⟨fun h => ?_, fun h => ?_, fun h => ?_, fun h1 h2 h3 => ?_⟩
  · rw [if_pos h]
  · subst h
    simp
  · subst h
    simp
  · rw [if_neg h1, if_neg h2, if_neg h3]

theorem C3_status_is_exact_match_witness :
    (checkCmdOutcome (worldWith [] recordDown) "down".toList "CACHE".toList St.init).1.logs =
      St.init.logs ++ [Log.stoppedOk] :=
  (C3_status_is_exact_match (worldWith [] recordDown) "down".toList "CACHE".toList St.init
    "C151".toList "/usr/cachesys".toList "2015.1.0.429.0".toList "down".toList
    ", last used Mon Jun  8 16:40:07 2015^cache.cpf^1972^57772^62972^^".toList
    (by decide) (by decide) (by decide) (by decide) (Or.inr ⟨_, rfl⟩) rfl rfl).2.1 rfl

theorem Split_ne_nil (sep : Char) (s : Str) : Split sep s ≠ [] := by
  induction s with
  | nil => simp [Split]
  | cons c cs ih =>
    simp only [Split]
    split
    · simp
    · split <;> simp

theorem Split_no_sep (sep : Char) (a : Str) (ha : sep ∉ a) : Split sep a = [a] := by
  induction a with
  | nil => simp [Split]
  | cons c cs ih =>
    have hc : c ≠ sep := fun h => ha (by simp [h])
    have hcs : sep ∉ cs := fun h => ha (by simp [h])
    simp only [Split, hc, if_false, ih hcs]

theorem Split_append_sep (sep : Char) (a x : Str) (ha : sep ∉ a) :
    Split sep (a ++ sep :: x) = a :: Split sep x := by
  induction a with
  | nil => simp [Split]
  | cons c cs ih =>
    have hc : c ≠ sep := fun h => ha (by simp [h])
    have hcs : sep ∉ cs := fun h => ha (by simp [h])
    simp only [List.cons_append, Split, hc, if_false, List.append_eq, ih hcs]

theorem firstTwo_foldl_rest (v : List Str) (tl : List Str) (n : Nat) (hn : 2 ≤ n) :
    (tl.enumFrom n).foldl
      (fun version kp => if kp.1 < 2 then version.set kp.1 kp.2 else version) v = v := by
  induction tl generalizing n with
  | nil => rfl
  | cons a tl ih =>
    simp only [List.enumFrom_cons, List.foldl_cons]
    rw [if_neg (by omega)]
    exact ih (n + 1) (by omega)

theorem firstTwo_cons_cons (a b : Str) (tl : List Str) : firstTwo (a :: b :: tl) = [a, b] := by
  unfold firstTwo
  simp only [List.enum, List.enumFrom_cons, List.foldl_cons]
  rw [firstTwo_foldl_rest _ tl _ (by omega)]
  rfl

theorem not_dot_of_digits (s : Str) (h : ∀ c ∈ s, isDigit c = true) : '.' ∉ s := by
  intro hmem
  have := h _ hmem
  simp [isDigit] at this

theorem shortVer_eq (maj min rest : Str) (hmaj : ∀ c ∈ maj, isDigit c = true)
    (hmin : ∀ c ∈ min, isDigit c = true) :
    shortVer (maj ++ '.' :: (min ++ '.' :: rest)) = maj ++ '.' :: min := by
  unfold shortVer
  simp only
  rw [Split_append_sep '.' maj _ (not_dot_of_digits maj hmaj),
    Split_append_sep '.' min _ (not_dot_of_digits min hmin)]
  obtain ⟨p, ps, hp⟩ : ∃ p ps, Split '.' rest = p :: ps := by
    cases h : Split '.' rest with
    | nil => exact absurd h (Split_ne_nil _ _)
    | cons p ps => exact ⟨p, ps, rfl⟩
  rw [firstTwo_cons_cons]
  simp [Join]

theorem plainDecimal_eq (maj min : Str) (hne : maj ≠ []) (hmaj : ∀ c ∈ maj, isDigit c = true)
    (hmin : ∀ c ∈ min, isDigit c = true) :
    plainDecimal (maj ++ '.' :: min) = some (digitsVal (maj ++ min), 10 ^ min.length) := by
  unfold plainDecimal
  rw [Split_append_sep '.' maj _ (not_dot_of_digits maj hmaj),
    Split_no_sep '.' min (not_dot_of_digits min hmin)]
  have h1 : maj.all isDigit = true := by simpa [List.all_eq_true] using hmaj
  have h2 : min.all isDigit = true := by simpa [List.all_eq_true] using hmin
  have h3 : (maj ++ min).isEmpty = false := by
    cases maj with
    | nil => exact absurd rfl hne
    | cons c cs => rfl
  simp [h1, h2, h3]

theorem getKernelVersion_eq (w : World) (s : St) (maj min rest : Str) (hne : maj ≠ [])
    (hmaj : ∀ c ∈ maj, isDigit c = true) (hmin : ∀ c ∈ min, isDigit c = true)
    (herr : (w.exec s.trace.length "uname".toList ["-r".toList]).err = false)
    (hout : (w.exec s.trace.length "uname".toList ["-r".toList]).out =
      maj ++ '.' :: (min ++ '.' :: rest)) :
    (getKernelVersion w s).2 =
      match roundFloat64 (digitsVal (maj ++ min)) (10 ^ min.length) with
      | some f => .ok (f, none)
      | none => .exit 1 := by
  obtain ⟨tr, lg, ch⟩ := s
  simp only at herr hout
  unfold getKernelVersion
  generalize "uname".toList = cmd at herr hout ⊢
  generalize ["-r".toList] = args at herr hout ⊢
  simp only [bind_apply, execCmd, herr, hout, Bool.false_eq_true, if_false,
    shortVer_eq maj min rest hmaj hmin, ParseFloat, plainDecimal_eq maj min hne hmaj hmin]
  cases roundFloat64 (digitsVal (maj ++ min)) (10 ^ min.length) with
  | none => simp [logf, osExit, bind_apply]
  | some f => simp [pure]

/-- C6 (counterexample): the `uname -r` answer `unameHuge` has the form
`maj.min.rest` with `maj` a 1 followed by 309 zeros and `min` the digit 0, and
on it the parsing fails: `getKernelVersion` ends in the fatal exit with status
1 and returns no value. -/
theorem C6_counterexample :
    unameHuge = ('1' :: List.replicate 309 '0') ++ '.' :: ("0".toList ++ '.' :: "x".toList) ∧
    (∀ c ∈ '1' :: List.replicate 309 '0', isDigit c = true) ∧
    (∀ c ∈ "0".toList, isDigit c = true) ∧
    (getKernelVersion (worldWith unameHuge []) St.init).2 = .exit 1 := by
  refine ⟨by decide, ?_, by decide, by decide⟩
  intro c hc
  rcases List.mem_cons.1 hc with h | h
  · rw [h]
    decide
  · rw [List.eq_of_mem_replicate h]
    decide

theorem digits_foldl (s : Str) (acc : Nat) :
    s.foldl (fun acc c => 10 * acc + (c.toNat - 48)) acc = acc * 10 ^ s.length + digitsVal s := by
  unfold digitsVal
  induction s generalizing acc with
  | nil => simp
  | cons c cs ih =>
    simp only [List.foldl_cons, List.length_cons]
    rw [ih (10 * acc + (c.toNat - 48)), ih (10 * 0 + (c.toNat - 48))]
    ring

theorem digitsVal_append (a b : Str) :
    digitsVal (a ++ b) = digitsVal a * 10 ^ b.length + digitsVal b := by
  have h : digitsVal (a ++ b) =
      b.foldl (fun acc c => 10 * acc + (c.toNat - 48)) (digitsVal a) := by
    unfold digitsVal
    rw [List.foldl_append]
  rw [h, digits_foldl]

theorem digitsVal_lt (s : Str) (h : ∀ c ∈ s, isDigit c = true) : digitsVal s < 10 ^ s.length := by
  induction s with
  | nil => simp [digitsVal]
  | cons c cs ih =>
    have h1 := ih fun x hx => h x (List.mem_cons_of_mem _ hx)
    have h2 : c.toNat - 48 ≤ 9 := by
      have := h c (List.mem_cons_self _ _)
      simp only [isDigit, decide_eq_true_eq] at this
      omega
    have h3 : digitsVal (c :: cs) = (c.toNat - 48) * 10 ^ cs.length + digitsVal cs := by
      have := digits_foldl cs (10 * 0 + (c.toNat - 48))
      simpa [digitsVal] using this
    rw [h3, List.length_cons, pow_succ]
    nlinarith

theorem decimal_value (maj min : Str) :
    ((digitsVal (maj ++ min) : ℕ) : ℚ) / ((10 ^ min.length : ℕ) : ℚ) =
      (digitsVal maj : ℚ) + (digitsVal min : ℚ) / (10 : ℚ) ^ min.length := by
  rw [digitsVal_append]
  push_cast
  field_simp

/-- C6 (amended): for every `uname -r` answer `maj.min.rest` with `maj` and
`min` strings of decimal digits, `maj` non-empty, and `rest` arbitrary, the
string parsed is `maj.min` (the rest is ignored). Let `x` be the number
written by the decimal numeral `maj.min`. When `x` is at or above
`float64Overflow` (the midpoint between the largest finite `float64` and
`2^1024`) the parsing fails and `getKernelVersion` ends in the fatal exit with
status 1. When `x` is below it, which holds whenever `maj` has at most 308
digits, `getKernelVersion` returns a finite non-negative `float64` that is
nearest to `x` among all `float64` values, with an even mantissa when another
`float64` is just as near, and that is `x` itself when `x` is a `float64`. -/
theorem C6_kernel_version_parse (w : World) (s : St) (maj min rest : Str) (hne : maj ≠ [])
    (hmaj : ∀ c ∈ maj, isDigit c = true) (hmin : ∀ c ∈ min, isDigit c = true)
    (herr : (w.exec s.trace.length "uname".toList ["-r".toList]).err = false)
    (hout : (w.exec s.trace.length "uname".toList ["-r".toList]).out =
      maj ++ '.' :: (min ++ '.' :: rest)) :
    shortVer (maj ++ '.' :: (min ++ '.' :: rest)) = maj ++ '.' :: min ∧
    (float64Overflow ≤ (digitsVal maj : ℚ) + (digitsVal min : ℚ) / (10 : ℚ) ^ min.length →
      (getKernelVersion w s).2 = .exit 1) ∧
    ((digitsVal maj : ℚ) + (digitsVal min : ℚ) / (10 : ℚ) ^ min.length < float64Overflow →
      ∃ f : Float64, (getKernelVersion w s).2 = .ok (f, none) ∧ f.neg = false ∧
        IsFloat64 f.toRat ∧
        (∀ g, IsFloat64 g →
          |f.toRat - ((digitsVal maj : ℚ) + (digitsVal min : ℚ) / (10 : ℚ) ^ min.length)| ≤
            |g - ((digitsVal maj : ℚ) + (digitsVal min : ℚ) / (10 : ℚ) ^ min.length)|) ∧
        (∀ g, IsFloat64 g → g ≠ f.toRat →
          |g - ((digitsVal maj : ℚ) + (digitsVal min : ℚ) / (10 : ℚ) ^ min.length)| =
            |f.toRat - ((digitsVal maj : ℚ) + (digitsVal min : ℚ) / (10 : ℚ) ^ min.length)| →
          f.mant % 2 = 0) ∧
        (IsFloat64 ((digitsVal maj : ℚ) + (digitsVal min : ℚ) / (10 : ℚ) ^ min.length) →
          f.toRat = (digitsVal maj : ℚ) + (digitsVal min : ℚ) / (10 : ℚ) ^ min.length)) ∧
    (maj.length ≤ 308 →
      (digitsVal maj : ℚ) + (digitsVal min : ℚ) / (10 : ℚ) ^ min.length < float64Overflow) := by
  have hres := getKernelVersion_eq w s maj min rest hne hmaj hmin herr hout
  have hD : 0 < 10 ^ min.length := by positivity
  have hTpos : (0 : ℚ) < float64Overflow :=
    lt_of_lt_of_le (by positivity) float64Overflow_ge
  have h308 : maj.length ≤ 308 →
      (digitsVal maj : ℚ) + (digitsVal min : ℚ) / (10 : ℚ) ^ min.length < float64Overflow := by
    intro hlen
    have h1 : (digitsVal maj : ℚ) + 1 ≤ (10 : ℚ) ^ maj.length := by
      exact_mod_cast digitsVal_lt maj hmaj
    have h2 : (digitsVal min : ℚ) / (10 : ℚ) ^ min.length < 1 := by
      rw [div_lt_one (by positivity)]
      exact_mod_cast digitsVal_lt min hmin
    have h3 : (10 : ℚ) ^ maj.length ≤ (10 : ℚ) ^ 308 :=
      pow_le_pow_right₀ (by norm_num) hlen
    have h4 := ten_pow_308_lt
    linarith
  refine ⟨shortVer_eq maj min rest hmaj hmin, ?_, ?_, h308⟩
  · rw [← decimal_value]
    intro hge
    by_cases hN : digitsVal (maj ++ min) = 0
    · rw [hN] at hge
      simp only [Nat.cast_zero, zero_div] at hge
      linarith
    · rw [hres, (roundFloat64_nearest _ _ (Nat.pos_of_ne_zero hN) hD).2 hge]
  · rw [← decimal_value]
    intro hlt
    by_cases hN : digitsVal (maj ++ min) = 0
    · refine ⟨⟨false, 0, 0⟩, ?_, rfl, ⟨false, 0, 0, by norm_num, by norm_num, by norm_num, ?_⟩,
        ?_, fun _ _ _ _ => rfl, ?_⟩
      · rw [hres, hN]
        simp [roundFloat64]
      · simp [Float64.toRat]
      · intro g _
        rw [hN]
        simp [Float64.toRat]
      · intro _
        rw [hN]
        simp [Float64.toRat]
    · obtain ⟨f, h1, h2, h3, h4, h5⟩ :=
        (roundFloat64_nearest _ _ (Nat.pos_of_ne_zero hN) hD).1 hlt
      refine ⟨f, by rw [hres, h1], h2, h3, h4, h5, fun hx => ?_⟩
      have h6 := h4 _ hx
      rw [sub_self, abs_zero] at h6
      exact sub_eq_zero.1 (abs_eq_zero.1 (le_antisymm h6 (abs_nonneg _)))

theorem C6_kernel_version_parse_witness :
    shortVer "3.8.0-19-generic".toList = "3.8".toList ∧
    ((digitsVal "3".toList : ℚ) + (digitsVal "8".toList : ℚ) / (10 : ℚ) ^ "8".toList.length <
      float64Overflow) :=
  ⟨(C6_kernel_version_parse (worldWith "3.8.0-19-generic".toList []) St.init "3".toList
    "8".toList "0-19-generic".toList (by decide) (by decide) (by decide) rfl rfl).1,
   (C6_kernel_version_parse (worldWith "3.8.0-19-generic".toList []) St.init "3".toList
    "8".toList "0-19-generic".toList (by decide) (by decide) (by decide) rfl rfl).2.2.2
      (by decide)⟩

end CContainerMain
